import Mathlib

/-!
# rayyizweb: `script.js`

A shallow embedding of the interactive widgets of `src/script.js` (audio player,
contact form, slideshows, booking calendar) and the properties its specification
states about them.

Conventions of the embedding.

* JavaScript numbers are modelled by `JSNum`: `NaN`, the two infinities and the finite
  doubles, the latter carried by the rationals they denote.  `*` and `/` round the exact
  result to the nearest double; there is no negative zero.
* The DOM is modelled by records holding exactly the properties the script reads or
  writes.  An assignment to a plain property stores the assigned value; an assignment to
  `currentTime` of an `<audio>` element goes through the accessor of the element.
* The page's `.audio-player` containers are a list in document order; the `AudioPlayer`
  object built for a container (`script.js` 239-241) is kept in the same record as the
  container, and a session is named by its position in that list.
-/

namespace Rayyiz

/-! ## JavaScript numbers

A finite JavaScript number is an IEEE 754 double; it is carried here by the rational it
denotes.  The arithmetic operators compute the exact rational result and round it to the
nearest double, ties to even (`roundDouble`), as IEEE 754 prescribes. -/

/-- A JavaScript number: `NaN`, `Infinity` / `-Infinity`, or a finite value. -/
inductive JSNum where
  | nan : JSNum
  | inf (neg : Bool) : JSNum
  | fin (q : ℚ) : JSNum
  deriving DecidableEq

/-- The result of `Math.floor`: not-a-number, an infinity, or an integer. -/
inductive JSIntegral where
  | nan : JSIntegral
  | inf (neg : Bool) : JSIntegral
  | int (z : ℤ) : JSIntegral
  deriving DecidableEq

/-- The binary logarithm of a natural number, rounded down (0 at 0), by halving. -/
def log2Fuel : Nat → Nat → Nat
  | 0, _ => 0
  | fuel + 1, n => if n < 2 then 0 else log2Fuel fuel (n / 2) + 1

/-- The power `2 ^ e` for an integer exponent. -/
def pow2 (e : ℤ) : ℚ :=
  if 0 ≤ e then ((2 ^ e.toNat : ℕ) : ℚ) else 1 / ((2 ^ (-e).toNat : ℕ) : ℚ)

/-- The binary exponent of a non-zero rational: the `E` with `2 ^ E ≤ |q| < 2 ^ (E + 1)`. -/
def binExp (q : ℚ) : ℤ :=
  let e0 : ℤ := (log2Fuel q.num.natAbs q.num.natAbs : ℤ) - (log2Fuel q.den q.den : ℤ)
  if pow2 e0 ≤ |q| then e0 else e0 - 1

/-- Rounding to the nearest integer, ties to the even one. -/
def rne (q : ℚ) : ℤ :=
  if q - ⌊q⌋ < 1 / 2 then ⌊q⌋
  else if 1 / 2 < q - ⌊q⌋ then ⌊q⌋ + 1
  else if ⌊q⌋ % 2 = 0 then ⌊q⌋ else ⌊q⌋ + 1

/-- The exponent of the unit in the last place of the doubles around `q`: 52 below the
binary exponent of `q`, and `-1074` throughout the subnormal range. -/
def ulpExp (q : ℚ) : ℤ := max (binExp q) (-1022) - 52

/-- The double nearest to the rational `q`, ties to even; an infinity when the rounded
magnitude reaches `2 ^ 1024`. -/
def roundDouble (q : ℚ) : JSNum :=
  let r : ℚ := (rne (q / pow2 (ulpExp q)) : ℚ) * pow2 (ulpExp q)
  if pow2 1024 ≤ |r| then JSNum.inf (decide (q < 0)) else JSNum.fin r

/-- The rational `q` is a double: rounding leaves it as it is. -/
def IsDouble (q : ℚ) : Prop := roundDouble q = JSNum.fin q

instance (q : ℚ) : Decidable (IsDouble q) := by
  unfold IsDouble
  infer_instance

namespace JSNum

/-- The global `isNaN` on a number. -/
def isNaN : JSNum → Bool
  | nan => true
  | _ => false

/-- The operator `*`. -/
def mul : JSNum → JSNum → JSNum
  | nan, _ => nan
  | _, nan => nan
  | inf a, inf b => inf (xor a b)
  | inf a, fin q => if q = 0 then nan else inf (xor a (decide (q < 0)))
  | fin q, inf b => if q = 0 then nan else inf (xor (decide (q < 0)) b)
  | fin a, fin b => roundDouble (a * b)

/-- The operator `/`. -/
def div : JSNum → JSNum → JSNum
  | nan, _ => nan
  | _, nan => nan
  | inf _, inf _ => nan
  | inf a, fin q => inf (xor a (decide (q < 0)))
  | fin _, inf _ => fin 0
  | fin a, fin b =>
    if b = 0 then (if a = 0 then nan else inf (decide (a < 0))) else roundDouble (a / b)

/-- Rounding toward zero of a rational. -/
def trunc (q : ℚ) : ℤ := if 0 ≤ q then ⌊q⌋ else ⌈q⌉

/-- The operator `%`: the remainder takes the sign of the dividend.  The remainder of two
doubles is a double, so no rounding takes place. -/
def rem : JSNum → JSNum → JSNum
  | nan, _ => nan
  | _, nan => nan
  | inf _, _ => nan
  | fin a, inf _ => fin a
  | fin a, fin b => if b = 0 then nan else fin (a - b * (trunc (a / b) : ℚ))

/-- The number a decimal literal of a program denotes: the double nearest to it. -/
def ofLiteral (q : ℚ) : JSNum := roundDouble q

/-- The function `Math.floor`. -/
def floor : JSNum → JSIntegral
  | nan => JSIntegral.nan
  | inf s => JSIntegral.inf s
  | fin q => JSIntegral.int ⌊q⌋

end JSNum

/-- The candidates for the digits `s` of a `k`-digit decimal `s × 10 ^ (n - k)` that
reads back as the integer double `x`: the two multiples of `10 ^ (n - k)` around `x`. -/
def digitCandidates (x k n : Nat) : List Nat :=
  ([x / 10 ^ (n - k), x / 10 ^ (n - k) + 1]).filter fun s =>
    decide (10 ^ (k - 1) ≤ s) && decide (s < 10 ^ k) &&
      decide (roundDouble ((s * 10 ^ (n - k) : ℕ) : ℚ) = JSNum.fin (x : ℚ))

/-- The distance between two natural numbers. -/
def absDiff (a b : Nat) : Nat := if a ≤ b then b - a else a - b

/-- Of two candidates `(s, k, n)` the one whose value is closer to `x`; at equal distance
the one with even `s`. -/
def closer (x : Nat) (a b : Nat × Nat × Nat) : Nat × Nat × Nat :=
  let va := a.1 * 10 ^ (a.2.2 - a.2.1)
  let vb := b.1 * 10 ^ (b.2.2 - b.2.1)
  if absDiff vb x < absDiff va x then b
  else if absDiff va x < absDiff vb x then a
  else if b.1 % 2 = 0 then b else a

/-- The best of a list of candidates. -/
def pickClosest (x : Nat) : List (Nat × Nat × Nat) → Option (Nat × Nat × Nat)
  | [] => none
  | c :: cs => some (cs.foldl (closer x) c)

/-- The candidates `(s, k, n)` with `k` digits for the integer double `x`. -/
def candidatesAt (x k : Nat) : List (Nat × Nat × Nat) :=
  ((digitCandidates x k (Nat.repr x).length).map fun s => (s, k, (Nat.repr x).length)) ++
    ((digitCandidates x k ((Nat.repr x).length + 1)).map fun s =>
      (s, k, (Nat.repr x).length + 1))

/-- The search of `Number::toString` for `n`, `k`, `s` with `k` as small as possible,
from `k` digits upward. -/
def shortestFrom (x : Nat) : Nat → Nat → Option (Nat × Nat × Nat)
  | 0, _ => none
  | fuel + 1, k =>
    match pickClosest x (candidatesAt x k) with
    | some c => some c
    | none => shortestFrom x fuel (k + 1)

/-- The decimal form `Number::toString` gives an integer double `x ≥ 2 ^ 53`: the
shortest digits that read back as `x`, followed by zeros up to 21 digits, in exponent
form beyond. -/
def largeToString (x : Nat) : String :=
  match shortestFrom x 17 1 with
  | none => Nat.repr x
  | some (s, k, n) =>
    if n ≤ 21 then Nat.repr s ++ String.mk (List.replicate (n - k) '0')
    else if k = 1 then Nat.repr s ++ "e+" ++ Nat.repr (n - 1)
    else String.mk ((Nat.repr s).data.take 1) ++ "." ++ String.mk ((Nat.repr s).data.drop 1) ++
      "e+" ++ Nat.repr (n - 1)

/-- The decimal form `Number::toString` gives a non-negative integer double: below
`2 ^ 53` every integer is a double and is printed digit for digit. -/
def natToString (x : Nat) : String :=
  if x < 2 ^ 53 then Nat.repr x else largeToString x

/-- Decimal form of an integer double, with a minus sign when negative. -/
def intToString (z : ℤ) : String :=
  if z < 0 then "-" ++ natToString z.natAbs else natToString z.natAbs

/-- The conversion `Number.prototype.toString` on the result of `Math.floor`. -/
def JSIntegral.toString : JSIntegral → String
  | JSIntegral.nan => "NaN"
  | JSIntegral.inf false => "Infinity"
  | JSIntegral.inf true => "-Infinity"
  | JSIntegral.int z => intToString z

/-- The method `String.prototype.padStart(n, c)` with a one-character filler. -/
def padStart (s : String) (n : Nat) (c : Char) : String :=
  String.mk (List.replicate (n - s.length) c) ++ s

/-! ## Audio player (`class AudioPlayer`, `script.js` 2-87) -/

/-- The properties of an `<audio>` element the script uses. -/
structure Audio where
  paused : Bool
  currentTime : JSNum
  duration : JSNum
  deriving DecidableEq

/-- One `.audio-player` container together with the `AudioPlayer` object built on it:
`audio` is the `<audio>` element, `iconClass` the `className` of the `<i>` inside
`.play-pause-btn`, `progressWidth` is `progressBar.style.width`, `clientWidth` is
`progressContainer.clientWidth`, `timeDisplay` the text of `.time-display`, and
`isPlaying` the field of the object. -/
structure AudioPlayer where
  audio : Audio
  iconClass : String
  progressWidth : String
  clientWidth : ℚ
  timeDisplay : String
  isPlaying : Bool
  deriving DecidableEq

/-- The `.audio-player` containers of the document, in document order. -/
abbrev Page := List AudioPlayer

/-- The loop `NodeList.forEach` with a callback that updates the visited element; the callback
receives the position of the element, which stands for its identity. -/
def forEachIdx (f : Nat → AudioPlayer → AudioPlayer) : Nat → Page → Page
  | _, [] => []
  | k, p :: ps => f k p :: forEachIdx f (k + 1) ps

/-- The callback of the loop in `play()` (lines 33-41): another container whose audio is
not paused gets its audio paused and its icon set to the play glyph. -/
def pauseOther (self : Nat) (k : Nat) (player : AudioPlayer) : AudioPlayer :=
  if k ≠ self then
    if !player.audio.paused then
      { player with audio := { player.audio with paused := true }, iconClass := "fas fa-play" }
    else player
  else player

/-- Lines 43-45 of `play()`, on the session itself. -/
def startSelf (p : AudioPlayer) : AudioPlayer :=
  { p with audio := { p.audio with paused := false }, isPlaying := true,
           iconClass := "fas fa-pause" }

/-- Method `AudioPlayer.play()` of the session at position `self`. -/
def play (self : Nat) (page : Page) : Page :=
  (forEachIdx (pauseOther self) 0 page).modify startSelf self

/-- Method `AudioPlayer.pause()`, on the session itself. -/
def pauseSelf (p : AudioPlayer) : AudioPlayer :=
  { p with audio := { p.audio with paused := true }, isPlaying := false,
           iconClass := "fas fa-play" }

/-- Method `AudioPlayer.pause()` of the session at position `self`. -/
def pause (self : Nat) (page : Page) : Page :=
  page.modify pauseSelf self

/-- Method `AudioPlayer.togglePlay()` of the session at position `self`. -/
def togglePlay (self : Nat) (page : Page) : Page :=
  match page[self]? with
  | some p => if p.isPlaying then pause self page else play self page
  | none => page

/-- How a call ends: normally, or with a `TypeError` thrown and not caught. -/
inductive Completion where
  | normal : Completion
  | typeError : Completion
  deriving DecidableEq

/-- Where a seek to the finite time `q` lands (HTML Standard, media elements, seeking): a
position after the end of the resource becomes the end, a position before its start
becomes the start; the whole resource is taken to be seekable.  While the duration is
still `NaN` nothing is loaded and the element keeps the value as its start position. -/
def seekPosition : JSNum → ℚ → ℚ
  | JSNum.fin d, q => max 0 (min q d)
  | JSNum.inf _, q => max 0 q
  | JSNum.nan, q => q

/-- The setter of `HTMLMediaElement.currentTime`.  Its argument is a Web IDL `double`: a
value that is `NaN` or infinite raises a `TypeError` and leaves the element as it was; a
finite value is sought. -/
def Audio.setCurrentTime (a : Audio) : JSNum → Audio × Completion
  | JSNum.fin q =>
    ({ a with currentTime := JSNum.fin (seekPosition a.duration q) }, Completion.normal)
  | _ => (a, Completion.typeError)

/-- The click event on the progress container: only `offsetX` is read. -/
structure ClickEvent where
  offsetX : ℚ

/-- Method `AudioPlayer.setProgress(e)`: the player afterwards and how the call ended.
The assignment of line 58 is the only statement that writes. -/
def setProgress (e : ClickEvent) (p : AudioPlayer) : AudioPlayer × Completion :=
  let width := JSNum.fin p.clientWidth
  let clickX := JSNum.fin e.offsetX
  let duration := p.audio.duration
  let r := p.audio.setCurrentTime (JSNum.mul (JSNum.div clickX width) duration)
  ({ p with audio := r.1 }, r.2)

/-- Method `AudioPlayer.formatTime(time)`. -/
def formatTime (time : JSNum) : String :=
  if time.isNaN then "0:00" else
    let minutes := JSNum.floor (JSNum.div time (JSNum.fin 60))
    let seconds := JSNum.floor (JSNum.rem time (JSNum.fin 60))
    minutes.toString ++ ":" ++ padStart seconds.toString 2 '0'

/-- Method `AudioPlayer.resetPlayer()`. -/
def resetPlayer (p : AudioPlayer) : AudioPlayer :=
  { p with isPlaying := false, iconClass := "fas fa-play", progressWidth := "0%",
           audio := (p.audio.setCurrentTime (JSNum.fin 0)).1 }

/-- A freshly constructed session on a container whose audio has loaded its metadata
(the constructor sets `isPlaying = false`, line 10). -/
def idlePlayer : AudioPlayer :=
  { audio := { paused := true, currentTime := JSNum.fin 0, duration := JSNum.fin 180 },
    iconClass := "fas fa-play", progressWidth := "0%", clientWidth := 200,
    timeDisplay := "0:00 / 3:00", isPlaying := false }

/-- A session whose audio has not loaded its metadata yet: the duration is `NaN`. -/
def unloadedPlayer : AudioPlayer :=
  { idlePlayer with audio := { idlePlayer.audio with duration := JSNum.nan } }

/-- The handle of a container is playing. -/
def isAudible (p : AudioPlayer) : Bool := !p.audio.paused

/-- A number below 100 written with exactly two decimal digits. -/
def twoDigits (n : Nat) : String :=
  String.mk [Nat.digitChar (n / 10), Nat.digitChar (n % 10)]

/-- The clamp of a fraction to `[0, 1]`. -/
def clamp01 (f : ℚ) : ℚ := max 0 (min 1 f)

/-! ## Slideshows (`script.js` 256-282 and 482-511)

The state of a slideshow is the closure variable `currentSlide`; the number of slides is a
constant of the closure.  JavaScript `%` on integers is the truncating remainder
`Int.tmod`.  The calls `updateSlideshow()` / `showSlide(currentSlide)` only repaint the
page from the new index. -/

namespace VideoSlideshow

/-- The video slideshow's `nextSlide()` (lines 274-277): the new `currentSlide`. -/
def nextSlide (totalSlides currentSlide : ℤ) : ℤ :=
  (currentSlide + 1).tmod totalSlides

/-- The video slideshow's `prevSlide()` (lines 279-282): the new `currentSlide`. -/
def prevSlide (totalSlides currentSlide : ℤ) : ℤ :=
  (currentSlide - 1 + totalSlides).tmod totalSlides

end VideoSlideshow

namespace Testimonials

/-- The testimonial slider's `nextSlide()` (lines 497-500); `length` is `slides.length`. -/
def nextSlide (length currentSlide : ℤ) : ℤ :=
  (currentSlide + 1).tmod length

/-- The testimonial slider's `prevSlide()` (lines 502-505); `length` is `slides.length`. -/
def prevSlide (length currentSlide : ℤ) : ℤ :=
  (currentSlide - 1 + length).tmod length

end Testimonials

/-! ## Calendar (`initCalendar`, `script.js` 406-479)

The built-in `Date` is modelled after the ECMAScript specification, in whole days: the
dates the script builds are all at midnight.  A time value is a number of milliseconds,
`none` standing for the `NaN` of an invalid date.  Times are local; the offset of the
host's time zone, taken to be constant, cancels between the constructor and the getters. -/

/-- ECMAScript `DaysInYear`. -/
def daysInYear (y : ℤ) : ℤ :=
  if y % 4 ≠ 0 then 365 else if y % 100 ≠ 0 then 366 else if y % 400 ≠ 0 then 365 else 366

/-- ECMAScript `DayFromYear`: the day number of 1 January of year `y`, day 0 being
1 January 1970. -/
def dayFromYear (y : ℤ) : ℤ :=
  365 * (y - 1970) + (y - 1969) / 4 - (y - 1901) / 100 + (y - 1601) / 400

/-- ECMAScript `YearFromTime`, on day numbers: the largest `y` with
`dayFromYear y ≤ day`, found from an estimate that is off by one year at most. -/
def yearFromDay (day : ℤ) : ℤ :=
  let y0 := 1970 + day * 400 / 146097
  if day < dayFromYear y0 then y0 - 1
  else if dayFromYear (y0 + 1) ≤ day then y0 + 1
  else y0

/-- ECMAScript `InLeapYear`, on day numbers. -/
def inLeapYear (day : ℤ) : ℤ := if daysInYear (yearFromDay day) = 365 then 0 else 1

/-- ECMAScript `DayWithinYear`, on day numbers. -/
def dayWithinYear (day : ℤ) : ℤ := day - dayFromYear (yearFromDay day)

/-- ECMAScript `MonthFromTime`, on day numbers. -/
def monthFromDay (day : ℤ) : ℤ :=
  if dayWithinYear day < 31 then 0
  else if dayWithinYear day < 59 + inLeapYear day then 1
  else if dayWithinYear day < 90 + inLeapYear day then 2
  else if dayWithinYear day < 120 + inLeapYear day then 3
  else if dayWithinYear day < 151 + inLeapYear day then 4
  else if dayWithinYear day < 181 + inLeapYear day then 5
  else if dayWithinYear day < 212 + inLeapYear day then 6
  else if dayWithinYear day < 243 + inLeapYear day then 7
  else if dayWithinYear day < 273 + inLeapYear day then 8
  else if dayWithinYear day < 304 + inLeapYear day then 9
  else if dayWithinYear day < 334 + inLeapYear day then 10
  else 11

/-- ECMAScript `DateFromTime`, on day numbers. -/
def dateFromDay (day : ℤ) : ℤ :=
  if monthFromDay day = 0 then dayWithinYear day + 1
  else if monthFromDay day = 1 then dayWithinYear day - 30
  else if monthFromDay day = 2 then dayWithinYear day - 58 - inLeapYear day
  else if monthFromDay day = 3 then dayWithinYear day - 89 - inLeapYear day
  else if monthFromDay day = 4 then dayWithinYear day - 119 - inLeapYear day
  else if monthFromDay day = 5 then dayWithinYear day - 150 - inLeapYear day
  else if monthFromDay day = 6 then dayWithinYear day - 180 - inLeapYear day
  else if monthFromDay day = 7 then dayWithinYear day - 211 - inLeapYear day
  else if monthFromDay day = 8 then dayWithinYear day - 242 - inLeapYear day
  else if monthFromDay day = 9 then dayWithinYear day - 272 - inLeapYear day
  else if monthFromDay day = 10 then dayWithinYear day - 303 - inLeapYear day
  else dayWithinYear day - 333 - inLeapYear day

/-- ECMAScript `WeekDay`, on day numbers: 1 January 1970 was a Thursday. -/
def weekDay (day : ℤ) : ℤ := (day + 4) % 7

/-- The day within year `ym` on which its month `mn` (0 to 11) begins. -/
def monthStart (ym mn : ℤ) : ℤ :=
  if mn = 0 then 0
  else if mn = 1 then 31
  else (if daysInYear ym = 365 then 0 else 1) +
    (if mn = 2 then 59 else if mn = 3 then 90 else if mn = 4 then 120
      else if mn = 5 then 151 else if mn = 6 then 181 else if mn = 7 then 212
      else if mn = 8 then 243 else if mn = 9 then 273 else if mn = 10 then 304 else 334)

/-- ECMAScript `MakeDay`: months outside 0 to 11 carry into the year; the day number is
that of the first of the month, plus `date - 1`. -/
def makeDay (year month date : ℤ) : ℤ :=
  dayFromYear (year + month / 12) + monthStart (year + month / 12) (month % 12) + date - 1

/-- The number of milliseconds of a day. -/
def msPerDay : ℤ := 86400000

/-- ECMAScript `TimeClip`: a time value further than `8.64 × 10^15` ms from the epoch is
`NaN`. -/
def timeClip (t : ℤ) : Option ℤ := if |t| ≤ 8640000000000000 then some t else none

/-- The constructor `new Date(year, month, date)`: the time value of the new object.  A
year from 0 to 99 is read as `1900 + year`. -/
def newDate (year month date : ℤ) : Option ℤ :=
  timeClip
    (makeDay (if 0 ≤ year ∧ year ≤ 99 then 1900 + year else year) month date * msPerDay)

/-- Method `Date.prototype.getDay`, on the time value. -/
def getDay (t : Option ℤ) : Option ℤ := t.map fun tv => weekDay (tv / msPerDay)

/-- Method `Date.prototype.getDate`, on the time value. -/
def getDate (t : Option ℤ) : Option ℤ := t.map fun tv => dateFromDay (tv / msPerDay)

/-- A year is a leap year when it is a multiple of 4 but not of 100, or a multiple of
400. -/
def isLeapYear (y : ℤ) : Bool := (y % 4 = 0 && y % 100 ≠ 0) || y % 400 = 0

/-- The number of days of month `m` (0 = January) of year `y`. -/
def monthLength (y : ℤ) : Nat → Nat
  | 0 => 31
  | 1 => if isLeapYear y then 29 else 28
  | 2 => 31
  | 3 => 30
  | 4 => 31
  | 5 => 30
  | 6 => 31
  | 7 => 31
  | 8 => 30
  | 9 => 31
  | 10 => 30
  | _ => 31

/-- The number of days of year `y` before its month `m`. -/
def daysBeforeMonth (y : ℤ) : Nat → Nat
  | 0 => 0
  | m + 1 => daysBeforeMonth y m + monthLength y m

/-- The days of `n` years counted one year after the other, from year `y` upward, added
to `acc`. -/
def countDaysUp : Nat → ℤ → Nat → Nat
  | 0, _, acc => acc
  | n + 1, y, acc => countDaysUp n (y + 1) (acc + daysBeforeMonth y 12)

/-- The days of `n` years counted one year after the other, from year `y - 1` downward,
added to `acc`. -/
def countDaysDown : Nat → ℤ → Nat → Nat
  | 0, _, acc => acc
  | n + 1, y, acc => countDaysDown n (y - 1) (acc + daysBeforeMonth (y - 1) 12)

/-- The number of days from 1 January 1970 to 1 January of the year `1970 + n`. -/
def daysUp (n : Nat) : Nat := countDaysUp n 1970 0

/-- The number of days from 1 January of the year `1970 - n` to 1 January 1970. -/
def daysDown (n : Nat) : Nat := countDaysDown n 1970 0

/-- The number of days from 1 January 1970 to the first day of month `m` of year `y`,
counted month by month; negative before 1970. -/
def daysSinceEpoch (y : ℤ) (m : Nat) : ℤ :=
  (if 1970 ≤ y then (daysUp (y - 1970).toNat : ℤ) else -(daysDown (1970 - y).toNat : ℤ)) +
    daysBeforeMonth y m

/-- The weekday index (Sunday = 0) of the first day of month `m` of year `y`: weekdays
advance by one a day, and 1 January 1970 was a Thursday. -/
def weekdayOfFirst (y : ℤ) (m : Nat) : Nat := ((4 + daysSinceEpoch y m) % 7).toNat

/-- A `<div>` of the calendar grid: its text, its class list and its inline style. -/
structure Cell where
  textContent : String
  classList : List String
  style : List (String × String)
  deriving DecidableEq

/-- The calendar widget: the children of `#calendar-grid`.  The text of `#current-month`,
which line 422 sets, is left out. -/
structure Calendar where
  grid : List Cell

def bookedDates : List Nat := [5, 12, 18, 25]

def pendingDates : List Nat := [8, 15, 22]

def dayHeaders : List String := ["Sun", "Mon", "Tue", "Wed", "Thu", "Fri", "Sat"]

/-- The header cell built in lines 434-438. -/
def headerCell (day : String) : Cell :=
  { textContent := day, classList := [],
    style := [("fontWeight", "bold"), ("textAlign", "center"), ("padding", "0.5rem")] }

/-- The blank cell built in line 443. -/
def emptyCell : Cell := { textContent := "", classList := [], style := [] }

/-- The day cell built in lines 448-458. -/
def dayCell (day : Nat) : Cell :=
  { textContent := Nat.repr day,
    classList :=
      if bookedDates.contains day then ["calendar-day", "booked"]
      else if pendingDates.contains day then ["calendar-day", "pending"]
      else ["calendar-day", "available"],
    style := [] }

/-- The comparison `i < bound` of a loop counter with a number that may be `NaN`. -/
def ltBound (i : Nat) : Option ℤ → Bool
  | none => false
  | some n => decide ((i : ℤ) < n)

/-- The comparison `i <= bound` of a loop counter with a number that may be `NaN`. -/
def leBound (i : Nat) : Option ℤ → Bool
  | none => false
  | some n => decide ((i : ℤ) ≤ n)

/-- The loop of lines 442-445, started at `i` with `fuel` iterations allowed. -/
def blankLoop (firstDay : Option ℤ) : Nat → Nat → List Cell → List Cell
  | 0, _, grid => grid
  | fuel + 1, i, grid =>
    if ltBound i firstDay then blankLoop firstDay fuel (i + 1) (grid ++ [emptyCell]) else grid

/-- The loop of lines 447-461, started at `day` with `fuel` iterations allowed. -/
def dayLoop (daysInMonth : Option ℤ) : Nat → Nat → List Cell → List Cell
  | 0, _, grid => grid
  | fuel + 1, day, grid =>
    if leBound day daysInMonth then
      dayLoop daysInMonth fuel (day + 1) (grid ++ [dayCell day])
    else grid

/-- The function `renderCalendar()` for the year and month of `currentDate`.  Each loop
gets as many iterations as its bound, which is what it needs to run to its end. -/
def renderCalendar (year month : ℤ) (_cal : Calendar) : Calendar :=
  let firstDay := getDay (newDate year month 1)
  let daysInMonth := getDate (newDate year (month + 1) 0)
  let grid0 : List Cell := []
  let grid1 := grid0 ++ dayHeaders.map headerCell
  let grid2 := blankLoop firstDay (firstDay.getD 0).toNat 0 grid1
  let grid3 := dayLoop daysInMonth (daysInMonth.getD 0).toNat 1 grid2
  { grid := grid3 }

/-- The three status classes of a day cell. -/
def statusClasses : List String := ["booked", "pending", "available"]

/-- The years for which the calendar is drawn as specified: those the built-in `Date`
holds in full, `-271820` to `275759`, other than `0` to `99`. -/
def PlainYear (y : ℤ) : Prop := -271820 ≤ y ∧ y ≤ 275759 ∧ ¬(0 ≤ y ∧ y ≤ 99)

/-! ## Contact form (`class FormHandler`, `script.js` 90-165) -/

/-- The characters JavaScript treats as white space, in `String.prototype.trim` and in
the regular-expression class `\s` alike: the WhiteSpace and LineTerminator code points. -/
def isWhiteSpace (c : Char) : Bool :=
  let n := c.toNat
  n == 0x09 || n == 0x0A || n == 0x0B || n == 0x0C || n == 0x0D || n == 0x20 ||
  n == 0xA0 || n == 0x1680 || (0x2000 ≤ n && n ≤ 0x200A) || n == 0x2028 || n == 0x2029 ||
  n == 0x202F || n == 0x205F || n == 0x3000 || n == 0xFEFF

/-- The class `\S`. -/
def notWhiteSpace (c : Char) : Bool := !isWhiteSpace c

/-- The method `String.prototype.trim`. -/
def trim (s : String) : String :=
  String.mk ((s.toList.dropWhile isWhiteSpace).reverse.dropWhile isWhiteSpace).reverse

/-- The regular expressions the script needs: a literal character, `C+` for a character
class `C`, and concatenation. -/
inductive Regex where
  | char (c : Char) : Regex
  | classPlus (p : Char → Bool) : Regex
  | seq (a b : Regex) : Regex

namespace Regex

/-- The whole of `s` is matched by the expression. -/
def fullMatch : Regex → List Char → Bool
  | char c, s => decide (s = [c])
  | classPlus p, s => !s.isEmpty && s.all p
  | seq a b, s =>
    (List.range (s.length + 1)).any fun k => a.fullMatch (s.take k) && b.fullMatch (s.drop k)

/-- The method `RegExp.prototype.test` for an expression without anchors and flags: some stretch of
the string, starting at some index `i` and `n` characters long, is matched. -/
def test (r : Regex) (s : String) : Bool :=
  (List.range (s.toList.length + 1)).any fun i =>
    (List.range (s.toList.length - i + 1)).any fun n => r.fullMatch ((s.toList.drop i).take n)

end Regex

/-- The literal `/\S+@\S+\.\S+/` of line 131. -/
def emailPattern : Regex :=
  Regex.seq (Regex.classPlus notWhiteSpace) (Regex.seq (Regex.char '@')
    (Regex.seq (Regex.classPlus notWhiteSpace) (Regex.seq (Regex.char '.')
      (Regex.classPlus notWhiteSpace))))

/-- The four named fields of the contact form, as `Object.fromEntries(new FormData(form))`
yields them. -/
structure FormFields where
  name : String
  email : String
  subject : String
  message : String
  deriving DecidableEq

/-- The callbacks the form handler passes to `setTimeout`. -/
inductive TimerCallback where
  | clearMessage : TimerCallback
  | completeSubmit : TimerCallback
  deriving DecidableEq

/-- The form handler and the part of the page it owns: the current and the default values
of the form controls, the `innerHTML` of `#form-message`, the `display` of `.btn-text` and
of `.loading`, the `disabled` flag of the submit button, and the timers set so far (delay
in milliseconds and callback). -/
structure FormHandler where
  fields : FormFields
  defaults : FormFields
  messageHtml : String
  btnTextDisplay : String
  loadingDisplay : String
  submitDisabled : Bool
  timers : List (Nat × TimerCallback)
  deriving DecidableEq

/-- Method `FormHandler.showMessage(message, type)`. -/
def showMessage (message type : String) (h : FormHandler) : FormHandler :=
  { h with messageHtml := "<div class=\"message " ++ type ++ "\">" ++ message ++ "</div>",
           timers := h.timers ++ [(5000, TimerCallback.clearMessage)] }

/-- Method `FormHandler.showSuccess(message)`. -/
def showSuccess (message : String) (h : FormHandler) : FormHandler :=
  showMessage message "success" h

/-- Method `FormHandler.showError(message)`. -/
def showError (message : String) (h : FormHandler) : FormHandler :=
  showMessage message "error" h

/-- Method `FormHandler.validateForm(data)`: the returned boolean and the handler afterwards.
An empty string is the only falsy string, so `!s.trim()` is `trim s = ""`. -/
def validateForm (data : FormFields) (h : FormHandler) : Bool × FormHandler :=
  if trim data.name = "" ∨ trim data.email = "" ∨ trim data.subject = "" ∨
      trim data.message = "" then
    (false, showError "Please fill in all fields." h)
  else if !emailPattern.test data.email then
    (false, showError "Please enter a valid email address." h)
  else
    (true, h)

/-- Method `FormHandler.showLoading()`. -/
def showLoading (h : FormHandler) : FormHandler :=
  { h with btnTextDisplay := "none", loadingDisplay := "inline-block", submitDisabled := true }

/-- Method `FormHandler.hideLoading()`. -/
def hideLoading (h : FormHandler) : FormHandler :=
  { h with btnTextDisplay := "inline", loadingDisplay := "none", submitDisabled := false }

/-- The call `form.reset()`: every control goes back to its default value. -/
def resetForm (h : FormHandler) : FormHandler :=
  { h with fields := h.defaults }

/-- Method `FormHandler.handleSubmit(e)`: the data are the current values of the form. -/
def handleSubmit (h : FormHandler) : FormHandler :=
  let data := h.fields
  let r := validateForm data h
  if !r.1 then r.2
  else
    let h1 := showLoading r.2
    { h1 with timers := h1.timers ++ [(2000, TimerCallback.completeSubmit)] }

/-- What a timer does when it fires (lines 116-120 and 153-155). -/
def runTimer : TimerCallback → FormHandler → FormHandler
  | TimerCallback.clearMessage, h => { h with messageHtml := "" }
  | TimerCallback.completeSubmit, h =>
    hideLoading (resetForm
      (showSuccess "Message sent successfully! We'll get back to you soon." h))

/-- The text occurs somewhere in the string `s`: a run of non-white-space characters,
`@`, a run of non-white-space characters, `.`, a run of non-white-space characters. -/
def ContainsEmailShape (s : String) : Prop :=
  ∃ pre l d t post : List Char,
    s.toList = pre ++ (l ++ '@' :: (d ++ '.' :: t)) ++ post ∧
    l ≠ [] ∧ d ≠ [] ∧ t ≠ [] ∧
    (∀ c ∈ l, isWhiteSpace c = false) ∧ (∀ c ∈ d, isWhiteSpace c = false) ∧
    (∀ c ∈ t, isWhiteSpace c = false)

/-- The whole string `s` is of the shape: a run of non-white-space characters, `@`, a run
of non-white-space characters, `.`, a run of non-white-space characters. -/
def IsEmailShape (s : String) : Prop :=
  ∃ l d t : List Char,
    s.toList = l ++ '@' :: (d ++ '.' :: t) ∧
    l ≠ [] ∧ d ≠ [] ∧ t ≠ [] ∧
    (∀ c ∈ l, isWhiteSpace c = false) ∧ (∀ c ∈ d, isWhiteSpace c = false) ∧
    (∀ c ∈ t, isWhiteSpace c = false)

/-- A form handler before any submission, with the given values typed in. -/
def freshForm (fields : FormFields) : FormHandler :=
  { fields := fields, defaults := ⟨"", "", "", ""⟩, messageHtml := "",
    btnTextDisplay := "inline", loadingDisplay := "none", submitDisabled := false,
    timers := [] }

/-! ## Theorems -/

/-! ### Audio player: exclusive playback -/

theorem forEachIdx_length (f : Nat → AudioPlayer → AudioPlayer) (k : Nat) (page : Page) :
    (forEachIdx f k page).length = page.length := by
  induction page generalizing k with
  | nil => rfl
  | cons p ps ih => simp [forEachIdx, ih]

theorem forEachIdx_getElem? (f : Nat → AudioPlayer → AudioPlayer) (k : Nat) (page : Page)
    (i : Nat) : (forEachIdx f k page)[i]? = (page[i]?).map (f (k + i)) := by
  induction page generalizing k i with
  | nil => simp [forEachIdx]
  | cons p ps ih =>
    cases i with
    | zero => simp [forEachIdx]
    | succ i =>
      simp only [forEachIdx, List.getElem?_cons_succ, ih]
      rw [show k + 1 + i = k + (i + 1) by omega]

theorem play_length (self : Nat) (page : Page) : (play self page).length = page.length := by
  simp [play, forEachIdx_length]

/-- What `play()` leaves at the position of the session itself. -/
theorem play_getElem?_self (self : Nat) (page : Page) :
    (play self page)[self]? = (page[self]?).map startSelf := by
  cases h : page[self]? <;> simp [play, forEachIdx_getElem?, pauseOther, h]

/-- What `play()` leaves at any other position. -/
theorem play_getElem?_other (self j : Nat) (page : Page) (hj : j ≠ self) :
    (play self page)[j]? = (page[j]?).map (pauseOther self j) := by
  simp [play, forEachIdx_getElem?, List.getElem?_modify_ne _ _ (Ne.symm hj)]

theorem pauseOther_paused (self j : Nat) (p : AudioPlayer) (hj : j ≠ self) :
    (pauseOther self j p).audio.paused = true := by
  unfold pauseOther
  cases hp : p.audio.paused <;> simp [hj, hp]

theorem pauseOther_isPlaying (self j : Nat) (p : AudioPlayer) :
    (pauseOther self j p).isPlaying = p.isPlaying := by
  unfold pauseOther
  split
  · split <;> rfl
  · rfl

theorem pauseOther_icon (self j : Nat) (p : AudioPlayer) (hj : j ≠ self)
    (hp : p.audio.paused = false) : (pauseOther self j p).iconClass = "fas fa-play" := by
  simp [pauseOther, hj, hp]

theorem countP_eq_one_of_unique {α : Type} (P : α → Bool) (l : List α) (i : Nat) (x : α)
    (hx : l[i]? = some x) (hP : P x = true)
    (hothers : ∀ j q, j ≠ i → l[j]? = some q → P q = false) : l.countP P = 1 := by
  induction l generalizing i with
  | nil => simp at hx
  | cons a as ih =>
    cases i with
    | zero =>
      simp only [List.getElem?_cons_zero, Option.some.injEq] at hx
      subst hx
      have hz : as.countP P = 0 := by
        rw [List.countP_eq_zero]
        intro b hb
        obtain ⟨n, hn⟩ := List.getElem?_of_mem hb
        have := hothers (n + 1) b (by omega) (by simpa using hn)
        simp [this]
      simp [List.countP_cons, hP, hz]
    | succ i =>
      have ha : P a = false := hothers 0 a (by omega) (by simp)
      have := ih i (by simpa using hx) (fun j q hj hq => hothers (j + 1) q (by omega) (by simpa using hq))
      simp [List.countP_cons, ha, this]

/-- C1: evaluation of the code where the claim fails.  Two sessions on one page, B at
position 1 and A at position 0; B is started through its own `play()`, then `A.play()`
is called.  Afterwards A believes it is playing, B's handle is paused and B's icon is
the play glyph, but `B.isPlaying` is still `true`; so the next click on B's button takes
the `pause()` branch of `togglePlay` and B stays silent. -/
theorem play_leaves_other_isPlaying :
    ((play 0 (play 1 [idlePlayer, idlePlayer]))[0]?).map (fun p => p.isPlaying) = some true ∧
    ((play 1 [idlePlayer, idlePlayer])[1]?).map (fun p => p.isPlaying) = some true ∧
    ((play 0 (play 1 [idlePlayer, idlePlayer]))[1]?).map
      (fun p => (p.isPlaying, p.audio.paused, p.iconClass)) = some (true, true, "fas fa-play") ∧
    ((togglePlay 1 (play 0 (play 1 [idlePlayer, idlePlayer])))[1]?).map
      (fun p => (p.isPlaying, p.audio.paused, p.iconClass)) = some (false, true, "fas fa-play") := by
  decide

/-- The method `play()` never writes the `isPlaying` field of another session. -/
theorem play_isPlaying_other (self j : Nat) (page : Page) (hj : j ≠ self) :
    ((play self page)[j]?).map (fun p => p.isPlaying) = (page[j]?).map (fun p => p.isPlaying) := by
  rw [play_getElem?_other self j page hj]
  cases page[j]? <;> simp [pauseOther_isPlaying]

/-- C2: after `A.play()` the page has the same containers; every handle other than A's is
paused; A's handle is playing and A's icon is the pause glyph; every other container whose
handle was playing has the play glyph; exactly one handle (so at most one) is playing. -/
theorem play_exclusive (page : Page) (self : Nat) (h : self < page.length) :
    (play self page).length = page.length ∧
    (∀ (j : Nat) (q : AudioPlayer), j ≠ self → (play self page)[j]? = some q →
      q.audio.paused = true) ∧
    (∃ a, (play self page)[self]? = some a ∧ a.audio.paused = false ∧
      a.iconClass = "fas fa-pause") ∧
    (∀ (j : Nat) (p q : AudioPlayer), j ≠ self → page[j]? = some p →
      p.audio.paused = false →
      (play self page)[j]? = some q → q.iconClass = "fas fa-play") ∧
    (∀ (i j : Nat) (p q : AudioPlayer), (play self page)[i]? = some p → (play self page)[j]? = some q →
      p.audio.paused = false → q.audio.paused = false → i = j) ∧
    (play self page).countP isAudible = 1 := by
  have hothers : ∀ j q, j ≠ self → (play self page)[j]? = some q → q.audio.paused = true := by
    intro j q hj hq
    rw [play_getElem?_other self j page hj] at hq
    cases hp : page[j]? with
    | none => simp [hp] at hq
    | some p =>
      simp only [hp, Option.map_some', Option.some.injEq] at hq
      subst hq
      exact pauseOther_paused self j p hj
  have hself : (play self page)[self]? = some (startSelf page[self]) := by
    rw [play_getElem?_self, List.getElem?_eq_getElem h]
    rfl
  refine ⟨play_length self page, hothers, ⟨_, hself, rfl, rfl⟩, ?_, ?_, ?_⟩
  · intro j p q hj hp hpp hq
    rw [play_getElem?_other self j page hj, hp] at hq
    simp only [Option.map_some', Option.some.injEq] at hq
    subst hq
    exact pauseOther_icon self j p hj hpp
  · intro i j p q hp hq hpp hqp
    by_contra hij
    have hi : i = self := by
      by_contra hne
      have := hothers i p hne hp
      simp [this] at hpp
    have hj : j = self := by
      by_contra hne
      have := hothers j q hne hq
      simp [this] at hqp
    exact hij (hi.trans hj.symm)
  · refine countP_eq_one_of_unique isAudible _ self _ hself (by simp [isAudible, startSelf]) ?_
    intro j q hj hq
    simp [isAudible, hothers j q hj hq]

/-- Witness of `play_exclusive`: three containers, the last two audible, the first one
starts playing. -/
theorem play_exclusive_witness :
    0 < [idlePlayer, startSelf idlePlayer, startSelf idlePlayer].length ∧
    [idlePlayer, startSelf idlePlayer, startSelf idlePlayer].countP isAudible = 2 ∧
    (play 0 [idlePlayer, startSelf idlePlayer, startSelf idlePlayer]).countP isAudible = 1 :=
  ⟨by decide, by decide,
    (play_exclusive [idlePlayer, startSelf idlePlayer, startSelf idlePlayer] 0
      (by decide)).2.2.2.2.2⟩

/-- C6: from every prior state `resetPlayer` leaves `isPlaying = false`, the play glyph,
progress width `"0%"` and current position `0`; nothing else changes. -/
theorem resetPlayer_exact (p : AudioPlayer) :
    (resetPlayer p).isPlaying = false ∧
    (resetPlayer p).iconClass = "fas fa-play" ∧
    (resetPlayer p).progressWidth = "0%" ∧
    (resetPlayer p).audio.currentTime = JSNum.fin 0 ∧
    (resetPlayer p).audio.paused = p.audio.paused ∧
    (resetPlayer p).audio.duration = p.audio.duration ∧
    (resetPlayer p).clientWidth = p.clientWidth ∧
    (resetPlayer p).timeDisplay = p.timeDisplay := by
  refine ⟨rfl, rfl, rfl, ?_, rfl, rfl, rfl, rfl⟩
  show JSNum.fin (seekPosition p.audio.duration 0) = JSNum.fin 0
  cases p.audio.duration with
  | nan => rfl
  | inf s => simp [seekPosition]
  | fin d => simp [seekPosition]

theorem togglePlay_getElem?_self (self : Nat) (page : Page) (p : AudioPlayer)
    (hp : page[self]? = some p) :
    (togglePlay self page)[self]? =
      some (if p.isPlaying then pauseSelf p else startSelf p) := by
  unfold togglePlay
  rw [hp]
  by_cases hb : p.isPlaying = true
  · simp [hb, pause, hp]
  · simp [hb, play_getElem?_self, hp]

/-- C7: a single `togglePlay` flips `isPlaying`; two in a row bring `isPlaying` back to
its original value and leave the icon on the glyph matching that value (pause glyph when
playing, play glyph when not). -/
theorem togglePlay_twice (page : Page) (self : Nat) (p : AudioPlayer)
    (hp : page[self]? = some p) :
    (∃ p1, (togglePlay self page)[self]? = some p1 ∧ p1.isPlaying = !p.isPlaying) ∧
    (∃ p2, (togglePlay self (togglePlay self page))[self]? = some p2 ∧
      p2.isPlaying = p.isPlaying ∧
      p2.iconClass = if p.isPlaying then "fas fa-pause" else "fas fa-play") := by
  have h1 := togglePlay_getElem?_self self page p hp
  have h2 := togglePlay_getElem?_self self (togglePlay self page) _ h1
  refine ⟨⟨_, h1, ?_⟩, ⟨_, h2, ?_, ?_⟩⟩ <;>
    cases hb : p.isPlaying <;> simp [pauseSelf, startSelf]

/-- Witness of `togglePlay_twice`: a fresh session, toggled twice. -/
theorem togglePlay_twice_witness :
    [idlePlayer][0]? = some idlePlayer ∧
    ((togglePlay 0 (togglePlay 0 [idlePlayer]))[0]?).map (fun p => (p.isPlaying, p.iconClass)) =
      some (idlePlayer.isPlaying, "fas fa-play") := by
  refine ⟨rfl, ?_⟩
  obtain ⟨p2, h, hp, hi⟩ := (togglePlay_twice [idlePlayer] 0 idlePlayer rfl).2
  rw [h, Option.map_some', hp, hi]
  rfl

/-! ### Rounding to doubles -/

theorem pow2_eq (e : ℤ) : pow2 e = (2 : ℚ) ^ e := by
  unfold pow2
  split
  · next h =>
    have he : e = (e.toNat : ℤ) := (Int.toNat_of_nonneg h).symm
    conv_rhs => rw [he]
    rw [zpow_natCast]
    push_cast
    rfl
  · next h =>
    have he : e = -((-e).toNat : ℤ) := by omega
    conv_rhs => rw [he]
    rw [zpow_neg, zpow_natCast]
    push_cast
    rw [one_div]

theorem log2Fuel_eq (f n : Nat) (h : n ≤ f) : log2Fuel f n = Nat.log2 n := by
  induction f generalizing n with
  | zero =>
    have : n = 0 := by omega
    subst this
    simp [log2Fuel, Nat.log2]
  | succ f ih =>
    rw [log2Fuel, Nat.log2]
    by_cases h2 : n < 2
    · simp [h2, Nat.not_le.mpr h2]
    · rw [if_neg h2, if_pos (by omega), ih _ (by omega)]

theorem two_zpow_pos (e : ℤ) : (0 : ℚ) < 2 ^ e := zpow_pos (by norm_num) e

theorem two_zpow_le {a b : ℤ} (h : a ≤ b) : (2 : ℚ) ^ a ≤ 2 ^ b :=
  zpow_le_zpow_right₀ (by norm_num) h

theorem two_zpow_lt_iff {a b : ℤ} : (2 : ℚ) ^ a < 2 ^ b ↔ a < b :=
  zpow_lt_zpow_iff_right₀ (by norm_num)

/-- The binary exponent brackets the magnitude. -/
theorem binExp_spec (q : ℚ) (hq : q ≠ 0) :
    (2 : ℚ) ^ binExp q ≤ |q| ∧ |q| < 2 ^ (binExp q + 1) := by
  have hn : q.num.natAbs ≠ 0 := by simpa using hq
  have hd : q.den ≠ 0 := q.den_nz
  set n := q.num.natAbs with hndef
  set d := q.den with hddef
  have habs : |q| = (n : ℚ) / (d : ℚ) := by
    conv_lhs => rw [← Rat.num_div_den q]
    rw [abs_div, Nat.abs_cast, hndef, Nat.cast_natAbs, Int.cast_abs]
  have hn1 : ((2 ^ n.log2 : ℕ) : ℚ) ≤ n := by exact_mod_cast Nat.log2_self_le hn
  have hn2 : (n : ℚ) < ((2 ^ (n.log2 + 1) : ℕ) : ℚ) := by exact_mod_cast Nat.lt_log2_self
  have hd1 : ((2 ^ d.log2 : ℕ) : ℚ) ≤ d := by exact_mod_cast Nat.log2_self_le hd
  have hd2 : (d : ℚ) < ((2 ^ (d.log2 + 1) : ℕ) : ℚ) := by exact_mod_cast Nat.lt_log2_self
  have hdpos : (0 : ℚ) < d := by exact_mod_cast Nat.pos_of_ne_zero hd
  push_cast at hn1 hn2 hd1 hd2
  have hup : |q| < 2 ^ ((n.log2 : ℤ) - (d.log2 : ℤ) + 1) := by
    rw [habs, div_lt_iff₀ hdpos]
    calc (n : ℚ) < 2 ^ (n.log2 + 1) := hn2
      _ = 2 ^ ((n.log2 : ℤ) - (d.log2 : ℤ) + 1) * 2 ^ d.log2 := by
          rw [← zpow_natCast, ← zpow_natCast, ← zpow_add₀ (by norm_num)]
          congr 1
          push_cast
          ring
      _ ≤ 2 ^ ((n.log2 : ℤ) - (d.log2 : ℤ) + 1) * d :=
          mul_le_mul_of_nonneg_left hd1 (two_zpow_pos _).le
  have hlo : (2 : ℚ) ^ ((n.log2 : ℤ) - (d.log2 : ℤ) - 1) ≤ |q| := by
    rw [habs, le_div_iff₀ hdpos]
    calc (2 : ℚ) ^ ((n.log2 : ℤ) - (d.log2 : ℤ) - 1) * d
        ≤ 2 ^ ((n.log2 : ℤ) - (d.log2 : ℤ) - 1) * 2 ^ (d.log2 + 1) :=
          mul_le_mul_of_nonneg_left hd2.le (two_zpow_pos _).le
      _ = 2 ^ n.log2 := by
          rw [← zpow_natCast, ← zpow_natCast, ← zpow_add₀ (by norm_num)]
          congr 1
          push_cast
          ring
      _ ≤ n := hn1
  unfold binExp
  simp only [log2Fuel_eq _ _ (le_refl _), pow2_eq]
  rw [← hndef, ← hddef]
  split
  · next h => exact ⟨h, hup⟩
  · next h =>
    refine ⟨hlo, ?_⟩
    rw [sub_add_cancel]
    exact not_le.mp h

theorem rne_mem (q : ℚ) : rne q = ⌊q⌋ ∨ (rne q = ⌊q⌋ + 1 ∧ 1 / 2 ≤ q - ⌊q⌋) := by
  unfold rne
  split
  · exact Or.inl rfl
  · next h1 =>
    split
    · next h2 => exact Or.inr ⟨rfl, h2.le⟩
    · split
      · exact Or.inl rfl
      · exact Or.inr ⟨rfl, not_lt.mp h1⟩

theorem le_rne (q : ℚ) (n : ℤ) (h : (n : ℚ) ≤ q) : n ≤ rne q := by
  have hf : n ≤ ⌊q⌋ := Int.le_floor.mpr h
  rcases rne_mem q with h1 | ⟨h1, _⟩ <;> omega

theorem rne_le (q : ℚ) (n : ℤ) (h : q ≤ (n : ℚ)) : rne q ≤ n := by
  rcases rne_mem q with h1 | ⟨h1, h2⟩
  · rw [h1]
    exact Int.floor_le_floor h |>.trans (by simp)
  · rw [h1]
    have hlt : (⌊q⌋ : ℚ) < n := by linarith
    have : ⌊q⌋ < n := by exact_mod_cast hlt
    omega

theorem rne_lt (q : ℚ) (n : ℤ) (h : q < (n : ℚ) - 1 / 2) : rne q < n := by
  rcases rne_mem q with h1 | ⟨h1, h2⟩
  · rw [h1]
    have hlt : (⌊q⌋ : ℚ) < n := by
      have := Int.floor_le q
      linarith
    exact_mod_cast hlt
  · rw [h1]
    have hlt : (⌊q⌋ : ℚ) + 1 < n := by linarith
    exact_mod_cast hlt

/-- What `roundDouble` returns when it returns a finite value. -/
theorem roundDouble_fin (q r : ℚ) (h : roundDouble q = JSNum.fin r) :
    r = (rne (q / 2 ^ ulpExp q) : ℚ) * 2 ^ ulpExp q ∧ |r| < 2 ^ (1024 : ℤ) := by
  unfold roundDouble at h
  simp only [pow2_eq] at h
  split at h
  · exact absurd h (by simp)
  · next hlt =>
    simp only [JSNum.fin.injEq] at h
    rw [← h]
    exact ⟨rfl, not_le.mp hlt⟩

theorem roundDouble_of_lt (q : ℚ)
    (h : |(rne (q / 2 ^ ulpExp q) : ℚ) * 2 ^ ulpExp q| < 2 ^ (1024 : ℤ)) :
    roundDouble q = JSNum.fin ((rne (q / 2 ^ ulpExp q) : ℚ) * 2 ^ ulpExp q) := by
  unfold roundDouble
  simp only [pow2_eq]
  rw [if_neg (not_le.mpr h)]

theorem roundDouble_zero : roundDouble 0 = JSNum.fin 0 := by decide!

theorem rne_nonneg (q : ℚ) (h : 0 ≤ q) : 0 ≤ rne q := le_rne q 0 (by simpa using h)

theorem binExp_lt_of_lt (q : ℚ) (hq : 0 < q) (b : ℤ) (h : q < 2 ^ b) : binExp q < b := by
  have h1 := (binExp_spec q hq.ne').1
  rw [abs_of_pos hq] at h1
  exact two_zpow_lt_iff.mp (lt_of_le_of_lt h1 h)

theorem binExp_ge_of_le (q : ℚ) (hq : 0 < q) (b : ℤ) (h : 2 ^ b ≤ q) : b ≤ binExp q := by
  have h1 := (binExp_spec q hq.ne').2
  rw [abs_of_pos hq] at h1
  have := two_zpow_lt_iff.mp (lt_of_le_of_lt h h1)
  omega

theorem ulpExp_nonpos (q : ℚ) (hq : 0 < q) (h : q < 2 ^ (53 : ℤ)) : ulpExp q ≤ 0 := by
  have := binExp_lt_of_lt q hq 53 h
  unfold ulpExp
  omega

/-- For a non-positive exponent the integers lie on the grid of step `2 ^ e`. -/
theorem int_on_grid (e : ℤ) (he : e ≤ 0) (n : ℤ) :
    (n : ℚ) / 2 ^ e = ((n * 2 ^ (-e).toNat : ℤ) : ℚ) := by
  have he' : e = -((-e).toNat : ℤ) := by omega
  conv_lhs => rw [he', zpow_neg, zpow_natCast, div_inv_eq_mul]
  push_cast
  rfl

theorem grid_bounds (q : ℚ) (e : ℤ) (he : e ≤ 0) (lo hi : ℤ) (hlo : (lo : ℚ) ≤ q)
    (hhi : q ≤ (hi : ℚ)) :
    (lo : ℚ) ≤ (rne (q / 2 ^ e) : ℚ) * 2 ^ e ∧ (rne (q / 2 ^ e) : ℚ) * 2 ^ e ≤ hi := by
  have hp := two_zpow_pos e
  constructor
  · have h1 : lo * 2 ^ (-e).toNat ≤ rne (q / 2 ^ e) := by
      apply le_rne
      rw [← int_on_grid e he lo]
      exact div_le_div_of_nonneg_right hlo hp.le
    have h2 : ((lo * 2 ^ (-e).toNat : ℤ) : ℚ) ≤ (rne (q / 2 ^ e) : ℚ) := by exact_mod_cast h1
    rw [← int_on_grid e he lo, div_le_iff₀ hp] at h2
    exact h2
  · have h1 : rne (q / 2 ^ e) ≤ hi * 2 ^ (-e).toNat := by
      apply rne_le
      rw [← int_on_grid e he hi]
      exact div_le_div_of_nonneg_right hhi hp.le
    have h2 : (rne (q / 2 ^ e) : ℚ) ≤ ((hi * 2 ^ (-e).toNat : ℤ) : ℚ) := by exact_mod_cast h1
    rw [← int_on_grid e he hi, le_div_iff₀ hp] at h2
    exact h2

theorem grid_lt (q : ℚ) (e : ℤ) (he : e ≤ 0) (K : ℤ) (h : (2 : ℚ) ^ e / 2 < K - q) :
    (rne (q / 2 ^ e) : ℚ) * 2 ^ e < K := by
  have hp := two_zpow_pos e
  have h1 : rne (q / 2 ^ e) < K * 2 ^ (-e).toNat := by
    apply rne_lt
    rw [← int_on_grid e he K]
    have h3 : 1 / 2 < ((K : ℚ) - q) / 2 ^ e := by
      rw [lt_div_iff₀ hp]
      linarith
    have h4 : (K : ℚ) / 2 ^ e - q / 2 ^ e = ((K : ℚ) - q) / 2 ^ e := by ring
    linarith
  have h2 : (rne (q / 2 ^ e) : ℚ) < ((K * 2 ^ (-e).toNat : ℤ) : ℚ) := by exact_mod_cast h1
  rw [← int_on_grid e he K, lt_div_iff₀ hp] at h2
  exact h2

/-- Rounding a positive rational below `2 ^ 53` never crosses an integer. -/
theorem roundDouble_between (q : ℚ) (hq : 0 < q) (h53 : q < 2 ^ (53 : ℤ)) (lo hi : ℤ)
    (hlo : (lo : ℚ) ≤ q) (hhi : q ≤ (hi : ℚ)) (hhi' : (hi : ℚ) ≤ 2 ^ (53 : ℤ)) :
    ∃ r, roundDouble q = JSNum.fin r ∧ (lo : ℚ) ≤ r ∧ r ≤ hi ∧
      r = (rne (q / 2 ^ ulpExp q) : ℚ) * 2 ^ ulpExp q := by
  have he := ulpExp_nonpos q hq h53
  obtain ⟨h1, h2⟩ := grid_bounds q (ulpExp q) he lo hi hlo hhi
  have h0 := (grid_bounds q (ulpExp q) he 0 hi (by simpa using hq.le) hhi).1
  refine ⟨_, roundDouble_of_lt q ?_, h1, h2, rfl⟩
  rw [abs_of_nonneg (by simpa using h0)]
  calc _ ≤ (hi : ℚ) := h2
    _ ≤ 2 ^ (53 : ℤ) := hhi'
    _ < 2 ^ (1024 : ℤ) := two_zpow_lt_iff.mpr (by norm_num)

/-- A positive double below `2 ^ 53` is a natural number below `2 ^ 53` over a power of
two. -/
theorem isDouble_repr (t : ℚ) (ht : IsDouble t) (h0 : 0 < t) (h53 : t < 2 ^ (53 : ℤ)) :
    ∃ m j : ℕ, m < 2 ^ 53 ∧ t = (m : ℚ) / 2 ^ j := by
  obtain ⟨hr, _⟩ := roundDouble_fin t t ht
  have he := ulpExp_nonpos t h0 h53
  have hp := two_zpow_pos (ulpExp t)
  have hM0 : 0 ≤ rne (t / 2 ^ ulpExp t) := rne_nonneg _ (div_nonneg h0.le hp.le)
  have hE := (binExp_spec t h0.ne').2
  rw [abs_of_pos h0] at hE
  have hlt : (rne (t / 2 ^ ulpExp t) : ℚ) < 2 ^ (53 : ℤ) := by
    have h1 : (rne (t / 2 ^ ulpExp t) : ℚ) = t / 2 ^ ulpExp t := by
      rw [eq_div_iff hp.ne']
      exact hr.symm
    rw [h1, div_lt_iff₀ hp, ← zpow_add₀ (by norm_num)]
    refine lt_of_lt_of_le hE (two_zpow_le ?_)
    unfold ulpExp
    omega
  refine ⟨(rne (t / 2 ^ ulpExp t)).toNat, (-ulpExp t).toNat, ?_, ?_⟩
  · have h2 : rne (t / 2 ^ ulpExp t) < 2 ^ 53 := by exact_mod_cast hlt
    omega
  · have h3 : ((rne (t / 2 ^ ulpExp t)).toNat : ℚ) = (rne (t / 2 ^ ulpExp t) : ℚ) := by
      have := Int.toNat_of_nonneg hM0
      exact_mod_cast this
    have h4 : (2 : ℚ) ^ ulpExp t = 1 / 2 ^ (-ulpExp t).toNat := by
      have he' : ulpExp t = -((-ulpExp t).toNat : ℤ) := by omega
      conv_lhs => rw [he', zpow_neg, zpow_natCast]
      rw [one_div]
    rw [h3]
    calc t = (rne (t / 2 ^ ulpExp t) : ℚ) * 2 ^ ulpExp t := hr
      _ = (rne (t / 2 ^ ulpExp t) : ℚ) * (1 / 2 ^ (-ulpExp t).toNat) :=
          congrArg (fun x => (rne (t / 2 ^ ulpExp t) : ℚ) * x) h4
      _ = (rne (t / 2 ^ ulpExp t) : ℚ) / 2 ^ (-ulpExp t).toNat := by rw [mul_one_div]

/-- The gap between a double below `2 ^ 53` and the next multiple of 60 is too wide for
the rounded quotient to reach the next integer. -/
theorem gap_of_repr (m j : ℕ) (K : ℤ) (hm : m < 2 ^ 53) (hK : (m : ℚ) / 2 ^ j / 60 < K) :
    (K : ℚ) / 2 ^ (53 : ℤ) < K - (m : ℚ) / 2 ^ j / 60 := by
  have hj : (0 : ℚ) < 2 ^ j := by positivity
  have h1 : (m : ℚ) < 60 * K * 2 ^ j := by
    rw [div_div, div_lt_iff₀ (by positivity)] at hK
    linarith
  have h1' : (m : ℤ) < 60 * K * 2 ^ j := by exact_mod_cast h1
  have key : 60 * K * 2 ^ j < (60 * K * 2 ^ j - m) * 2 ^ 53 := by
    by_contra hcon
    have h2 : 60 * K * 2 ^ j = 3 * (20 * (K * 2 ^ j)) := by ring
    have hm' : (m : ℤ) < 9007199254740992 := by exact_mod_cast hm
    have h3 : (2 : ℤ) ^ 53 = 9007199254740992 := by norm_num
    rw [h3] at hcon
    generalize K * 2 ^ j = X at h1' hcon h2
    rw [h2] at h1' hcon
    omega
  have key' : (60 * K * 2 ^ j : ℚ) < (60 * K * 2 ^ j - m) * 2 ^ 53 := by exact_mod_cast key
  have h53 : (2 : ℚ) ^ (53 : ℤ) = 2 ^ 53 := by norm_cast
  rw [h53, div_lt_iff₀ (by positivity)]
  have h4 : ((K : ℚ) - (m : ℚ) / 2 ^ j / 60) * 2 ^ 53 =
      ((60 * K * 2 ^ j - m) * 2 ^ 53) / (60 * 2 ^ j) := by
    field_simp
    ring
  rw [h4, lt_div_iff₀ (by positivity)]
  linarith

/-- Below `2 ^ 53` the rounding of `t / 60` does not change its integer part. -/
theorem floor_div_sixty (t : ℚ) (ht : IsDouble t) (h0 : 0 ≤ t) (h53 : t < 2 ^ (53 : ℤ)) :
    ∃ r, JSNum.div (JSNum.fin t) (JSNum.fin 60) = JSNum.fin r ∧ ⌊r⌋ = ⌊t / 60⌋ := by
  have h60 : (60 : ℚ) ≠ 0 := by norm_num
  simp only [JSNum.div, h60, if_false]
  rcases h0.eq_or_lt with h0 | h0
  · subst h0
    exact ⟨0, by simpa using roundDouble_zero, by simp⟩
  have hq0 : 0 < t / 60 := by positivity
  have hq53 : t / 60 < 2 ^ (53 : ℤ) := by
    rw [div_lt_iff₀ (by norm_num)]
    have : (0 : ℚ) < 2 ^ (53 : ℤ) := two_zpow_pos 53
    linarith
  have hk0 : 0 ≤ ⌊t / 60⌋ := Int.floor_nonneg.mpr hq0.le
  have hlo : ((⌊t / 60⌋ : ℤ) : ℚ) ≤ t / 60 := Int.floor_le _
  have hhi : t / 60 < ((⌊t / 60⌋ + 1 : ℤ) : ℚ) := by
    push_cast
    exact Int.lt_floor_add_one _
  have hhi' : ((⌊t / 60⌋ + 1 : ℤ) : ℚ) ≤ 2 ^ (53 : ℤ) := by
    have h1 : t / 60 < 2 ^ (53 : ℤ) / 60 := by
      exact div_lt_div_of_pos_right h53 (by norm_num)
    have h2 : (2 : ℚ) ^ (53 : ℤ) = 9007199254740992 := by norm_num
    push_cast
    rw [h2] at h1 ⊢
    linarith
  obtain ⟨r, hr, hr1, hr2, hr3⟩ :=
    roundDouble_between (t / 60) hq0 hq53 ⌊t / 60⌋ (⌊t / 60⌋ + 1) hlo hhi.le hhi'
  refine ⟨r, hr, ?_⟩
  rw [Int.floor_eq_iff]
  refine ⟨hr1, ?_⟩
  obtain ⟨m, j, hm, hmj⟩ := isDouble_repr t ht h0 h53
  have hgap := gap_of_repr m j (⌊t / 60⌋ + 1) hm (by rw [← hmj]; exact hhi)
  rw [← hmj] at hgap
  have he := ulpExp_nonpos (t / 60) hq0 hq53
  have hK1 : (1 : ℚ) ≤ ((⌊t / 60⌋ + 1 : ℤ) : ℚ) := by
    have : (1 : ℤ) ≤ ⌊t / 60⌋ + 1 := by omega
    exact_mod_cast this
  have hulp : (2 : ℚ) ^ ulpExp (t / 60) ≤ ((⌊t / 60⌋ + 1 : ℤ) : ℚ) / 2 ^ (52 : ℤ) := by
    rw [le_div_iff₀ (two_zpow_pos 52), ← zpow_add₀ (by norm_num)]
    have hE := (binExp_spec (t / 60) hq0.ne').1
    rw [abs_of_pos hq0] at hE
    by_cases hb : -1022 ≤ binExp (t / 60)
    · have : ulpExp (t / 60) + 52 = binExp (t / 60) := by
        unfold ulpExp
        omega
      rw [this]
      linarith
    · have : ulpExp (t / 60) + 52 = -1022 := by
        unfold ulpExp
        omega
      rw [this]
      refine le_trans ?_ hK1
      have : (2 : ℚ) ^ (-1022 : ℤ) ≤ 2 ^ (0 : ℤ) := two_zpow_le (by norm_num)
      simpa using this
  have hlt := grid_lt (t / 60) (ulpExp (t / 60)) he (⌊t / 60⌋ + 1) (by
    have h1 : ((⌊t / 60⌋ + 1 : ℤ) : ℚ) / 2 ^ (52 : ℤ) / 2 =
        ((⌊t / 60⌋ + 1 : ℤ) : ℚ) / 2 ^ (53 : ℤ) := by
      rw [div_div]
      congr 1
    have h2 : (2 : ℚ) ^ ulpExp (t / 60) / 2 ≤ ((⌊t / 60⌋ + 1 : ℤ) : ℚ) / 2 ^ (52 : ℤ) / 2 :=
      div_le_div_of_nonneg_right hulp (by norm_num)
    linarith)
  rw [hr3]
  exact_mod_cast hlt

theorem roundDouble_nonpos (q r : ℚ) (hq : q ≤ 0) (h : roundDouble q = JSNum.fin r) : r ≤ 0 := by
  rw [(roundDouble_fin q r h).1]
  have hp := two_zpow_pos (ulpExp q)
  have h1 : rne (q / 2 ^ ulpExp q) ≤ 0 :=
    rne_le _ 0 (by simpa using div_nonpos_of_nonpos_of_nonneg hq hp.le)
  have h2 : (rne (q / 2 ^ ulpExp q) : ℚ) ≤ 0 := by exact_mod_cast h1
  exact mul_nonpos_of_nonpos_of_nonneg h2 hp.le

theorem roundDouble_nonneg (q r : ℚ) (hq : 0 ≤ q) (h : roundDouble q = JSNum.fin r) : 0 ≤ r := by
  rw [(roundDouble_fin q r h).1]
  have hp := two_zpow_pos (ulpExp q)
  have h1 : 0 ≤ rne (q / 2 ^ ulpExp q) := rne_nonneg _ (div_nonneg hq hp.le)
  have h2 : (0 : ℚ) ≤ (rne (q / 2 ^ ulpExp q) : ℚ) := by exact_mod_cast h1
  exact mul_nonneg h2 hp.le

theorem binExp_mono (x y : ℚ) (hx : 0 < x) (hxy : x ≤ y) : binExp x ≤ binExp y := by
  have h1 := (binExp_spec x hx.ne').1
  rw [abs_of_pos hx] at h1
  have := binExp_ge_of_le y (lt_of_lt_of_le hx hxy) (binExp x) (h1.trans hxy)
  exact this

theorem ulpExp_mono (x y : ℚ) (hx : 0 < x) (hxy : x ≤ y) : ulpExp x ≤ ulpExp y := by
  have := binExp_mono x y hx hxy
  unfold ulpExp
  omega

/-- A multiple of `2 ^ a` is a multiple of `2 ^ b` for `b ≤ a`. -/
theorem grid_coarser (M : ℤ) (a b : ℤ) (hab : b ≤ a) :
    (M : ℚ) * 2 ^ a / 2 ^ b = ((M * 2 ^ (a - b).toNat : ℤ) : ℚ) := by
  have h : a = b + ((a - b).toNat : ℤ) := by omega
  conv_lhs => rw [h, zpow_add₀ (by norm_num : (2 : ℚ) ≠ 0), zpow_natCast]
  push_cast
  field_simp
  ring

/-- Rounding does not step over a double from below. -/
theorem roundDouble_le_of_le (x y r : ℚ) (hy : IsDouble y) (hx : 0 < x) (hxy : x ≤ y)
    (h : roundDouble x = JSNum.fin r) : r ≤ y := by
  have hp := two_zpow_pos (ulpExp x)
  have hey := ulpExp_mono x y hx hxy
  have hyr := (roundDouble_fin y y hy).1
  have h1 : rne (x / 2 ^ ulpExp x) ≤
      rne (y / 2 ^ ulpExp y) * 2 ^ (ulpExp y - ulpExp x).toNat := by
    apply rne_le
    rw [← grid_coarser _ _ _ hey, ← hyr]
    exact div_le_div_of_nonneg_right hxy hp.le
  have h2 : (rne (x / 2 ^ ulpExp x) : ℚ) ≤
      ((rne (y / 2 ^ ulpExp y) * 2 ^ (ulpExp y - ulpExp x).toNat : ℤ) : ℚ) := by
    exact_mod_cast h1
  rw [← grid_coarser _ _ _ hey, ← hyr, le_div_iff₀ hp] at h2
  rw [(roundDouble_fin x r h).1]
  exact h2

/-- A positive double is at least `2 ^ (-1074)`. -/
theorem isDouble_ge_min (y : ℚ) (hy : IsDouble y) (h0 : 0 < y) : (2 : ℚ) ^ (-1074 : ℤ) ≤ y := by
  have hyr := (roundDouble_fin y y hy).1
  have hp := two_zpow_pos (ulpExp y)
  have hM : 0 < rne (y / 2 ^ ulpExp y) := by
    by_contra hcon
    have h1 : (rne (y / 2 ^ ulpExp y) : ℚ) ≤ 0 := by exact_mod_cast not_lt.mp hcon
    have := mul_nonpos_of_nonpos_of_nonneg h1 hp.le
    rw [← hyr] at this
    exact absurd h0 (not_lt.mpr this)
  have hM1 : (1 : ℚ) ≤ (rne (y / 2 ^ ulpExp y) : ℚ) := by exact_mod_cast hM
  have he : (-1074 : ℤ) ≤ ulpExp y := by
    unfold ulpExp
    omega
  calc (2 : ℚ) ^ (-1074 : ℤ) ≤ 2 ^ ulpExp y := two_zpow_le he
    _ = 1 * 2 ^ ulpExp y := (one_mul _).symm
    _ ≤ (rne (y / 2 ^ ulpExp y) : ℚ) * 2 ^ ulpExp y := mul_le_mul_of_nonneg_right hM1 hp.le
    _ = y := hyr.symm

/-- Rounding does not step over a double from above. -/
theorem roundDouble_ge_of_ge (x y r : ℚ) (hy : IsDouble y) (h0 : 0 < y) (hxy : y ≤ x)
    (h : roundDouble x = JSNum.fin r) : y ≤ r := by
  have hx : 0 < x := lt_of_lt_of_le h0 hxy
  have hp := two_zpow_pos (ulpExp x)
  have hyr := (roundDouble_fin y y hy).1
  rw [(roundDouble_fin x r h).1]
  have hE := binExp_mono y x h0 hxy
  rcases hE.eq_or_lt with hE | hE
  · have he : ulpExp y = ulpExp x := by
      unfold ulpExp
      rw [hE]
    have h1 : rne (y / 2 ^ ulpExp y) ≤ rne (x / 2 ^ ulpExp x) := by
      apply le_rne
      have : (rne (y / 2 ^ ulpExp y) : ℚ) = y / 2 ^ ulpExp x := by
        rw [eq_div_iff hp.ne', ← he]
        exact hyr.symm
      rw [this]
      exact div_le_div_of_nonneg_right hxy hp.le
    have h2 : (rne (y / 2 ^ ulpExp y) : ℚ) ≤ (rne (x / 2 ^ ulpExp x) : ℚ) := by exact_mod_cast h1
    calc y = (rne (y / 2 ^ ulpExp y) : ℚ) * 2 ^ ulpExp x := by rw [← he]; exact hyr
      _ ≤ (rne (x / 2 ^ ulpExp x) : ℚ) * 2 ^ ulpExp x := mul_le_mul_of_nonneg_right h2 hp.le
  · have hEy : (-1074 : ℤ) ≤ binExp y := binExp_ge_of_le y h0 _ (isDouble_ge_min y hy h0)
    have hex : ulpExp x ≤ binExp x := by
      unfold ulpExp
      omega
    have hxE := (binExp_spec x hx.ne').1
    rw [abs_of_pos hx] at hxE
    have hyE := (binExp_spec y h0.ne').2
    rw [abs_of_pos h0] at hyE
    have h1 : (1 : ℤ) * 2 ^ (binExp x - ulpExp x).toNat ≤ rne (x / 2 ^ ulpExp x) := by
      apply le_rne
      rw [← grid_coarser 1 _ _ hex]
      simpa using div_le_div_of_nonneg_right hxE hp.le
    have h2 : (((1 : ℤ) * 2 ^ (binExp x - ulpExp x).toNat : ℤ) : ℚ) ≤
        (rne (x / 2 ^ ulpExp x) : ℚ) := by exact_mod_cast h1
    rw [← grid_coarser 1 _ _ hex, div_le_iff₀ hp] at h2
    calc y ≤ 2 ^ (binExp y + 1) := hyE.le
      _ ≤ 2 ^ binExp x := two_zpow_le (by omega)
      _ = ((1 : ℤ) : ℚ) * 2 ^ binExp x := by simp
      _ ≤ _ := h2

/-! ### Audio player: time formatting and seeking -/

theorem intToString_of_nonneg (z : ℤ) (h : 0 ≤ z) (h53 : z < 2 ^ 53) :
    intToString z = Nat.repr z.toNat := by
  unfold intToString natToString
  rw [if_neg (not_lt.mpr h), if_pos (by omega)]
  congr 1
  omega

theorem padStart_repr (n : Nat) (h : n < 60) : padStart (Nat.repr n) 2 '0' = twoDigits n := by
  interval_cases n <;> decide

/-- The first character of the decimal form is not `'0'`, the number zero apart. -/
theorem toDigitsCore_head (fuel n : Nat) (ds : List Char) (hn : n ≠ 0) (hf : n < fuel) :
    ∃ c rest, Nat.toDigitsCore 10 fuel n ds = c :: rest ∧ c ≠ '0' := by
  induction fuel generalizing n ds with
  | zero => omega
  | succ f ih =>
    unfold Nat.toDigitsCore
    by_cases h0 : n / 10 = 0
    · have hlt : n < 10 := by omega
      refine ⟨Nat.digitChar (n % 10), ds, by simp [h0], ?_⟩
      interval_cases n <;> first | omega | decide
    · simp only [h0, if_false]
      exact ih (n / 10) _ h0 (by omega)

theorem repr_no_leading_zero (n : Nat) (hn : n ≠ 0) :
    ∃ c rest, (Nat.repr n).data = c :: rest ∧ c ≠ '0' := by
  simpa [Nat.repr, Nat.toDigits, List.asString] using
    toDigitsCore_head (n + 1) n [] hn (by omega)

theorem formatTime_fin (t : ℚ) (hd : IsDouble t) (ht : 0 ≤ t) (h53 : t < 9007199254740992) :
    formatTime (JSNum.fin t) =
        Nat.repr ⌊t / 60⌋.toNat ++ ":" ++ twoDigits ⌊t - 60 * (⌊t / 60⌋ : ℚ)⌋.toNat ∧
      ⌊t - 60 * (⌊t / 60⌋ : ℚ)⌋.toNat < 60 := by
  have h53' : t < 2 ^ (53 : ℤ) := by
    have : (2 : ℚ) ^ (53 : ℤ) = 9007199254740992 := by norm_num
    rw [this]
    exact h53
  have hq : (0 : ℚ) ≤ t / 60 := by positivity
  have hm : (0 : ℤ) ≤ ⌊t / 60⌋ := Int.floor_nonneg.mpr hq
  have hm53 : ⌊t / 60⌋ < 2 ^ 53 := by
    rw [Int.floor_lt]
    have : ((2 ^ 53 : ℤ) : ℚ) = 9007199254740992 := by norm_num
    rw [this]
    linarith
  have hlo : (0 : ℚ) ≤ t - 60 * (⌊t / 60⌋ : ℚ) := by
    have := Int.floor_le (t / 60)
    linarith
  have hhi : t - 60 * (⌊t / 60⌋ : ℚ) < 60 := by
    have := Int.lt_floor_add_one (t / 60)
    linarith
  have hs : (0 : ℤ) ≤ ⌊t - 60 * (⌊t / 60⌋ : ℚ)⌋ := Int.floor_nonneg.mpr hlo
  have hs60 : ⌊t - 60 * (⌊t / 60⌋ : ℚ)⌋ < 60 := Int.floor_lt.mpr (by exact_mod_cast hhi)
  have hlt : ⌊t - 60 * (⌊t / 60⌋ : ℚ)⌋.toNat < 60 := by omega
  refine ⟨?_, hlt⟩
  obtain ⟨r, hr, hfloor⟩ := floor_div_sixty t hd ht h53'
  have h60 : (60 : ℚ) ≠ 0 := by norm_num
  simp only [formatTime, JSNum.isNaN, hr, JSNum.rem, JSNum.floor, JSNum.trunc,
    JSIntegral.toString, h60, if_false, if_pos hq, Bool.false_eq_true, hfloor]
  rw [intToString_of_nonneg _ hm hm53, intToString_of_nonneg _ hs (by omega),
    padStart_repr _ hlt]

/-- C3, as stated, fails.  At `t = 6 × 10^22` the minutes are printed in exponent form:
the result is `"1e+21:00"`, not the decimal form of `floor (t / 60) = 10^21`.  At
`t = 68183971259612096` the quotient `t / 60` is rounded up to an integer: the minutes
printed are `1136399520993535`, while `floor (t / 60) = 1136399520993534`. -/
theorem formatTime_beyond_double_range :
    IsDouble 60000000000000000000000 ∧
    formatTime (JSNum.fin 60000000000000000000000) = "1e+21:00" ∧
    formatTime (JSNum.fin 60000000000000000000000) ≠
      Nat.repr ⌊(60000000000000000000000 : ℚ) / 60⌋.toNat ++ ":" ++
        twoDigits ⌊(60000000000000000000000 : ℚ) -
          60 * (⌊(60000000000000000000000 : ℚ) / 60⌋ : ℚ)⌋.toNat ∧
    IsDouble 68183971259612096 ∧
    formatTime (JSNum.fin 68183971259612096) = "1136399520993535:56" ∧
    ⌊(68183971259612096 : ℚ) / 60⌋ = 1136399520993534 := by
  refine ⟨by decide!, by decide!, by decide!, by decide!, by decide!, by decide!⟩

/-- C3, amended: `formatTime` returns `"0:00"` on not-a-number; on a finite non-negative
double `t` below `2^53` it returns the decimal form of `floor (t / 60)` (which has no
leading zero), a colon, and `floor (t mod 60)`, a number below 60, written with exactly
two digits; and `formatTime 75.9 = "1:15"`, `formatTime 0 = "0:00"`,
`formatTime 3599 = "59:59"`. -/
theorem formatTime_spec (t : ℚ) (hd : IsDouble t) (ht : 0 ≤ t) (h53 : t < 9007199254740992) :
    formatTime JSNum.nan = "0:00" ∧
    formatTime (JSNum.fin t) =
      Nat.repr ⌊t / 60⌋.toNat ++ ":" ++ twoDigits ⌊t - 60 * (⌊t / 60⌋ : ℚ)⌋.toNat ∧
    ⌊t - 60 * (⌊t / 60⌋ : ℚ)⌋.toNat < 60 ∧
    (⌊t / 60⌋.toNat ≠ 0 → ∃ c rest, (Nat.repr ⌊t / 60⌋.toNat).data = c :: rest ∧ c ≠ '0') ∧
    formatTime (JSNum.ofLiteral (759 / 10)) = "1:15" ∧
    formatTime (JSNum.ofLiteral 0) = "0:00" ∧
    formatTime (JSNum.ofLiteral 3599) = "59:59" :=
  ⟨by decide, (formatTime_fin t hd ht h53).1, (formatTime_fin t hd ht h53).2,
    repr_no_leading_zero _, by decide!, by decide!, by decide!⟩

/-- Witness of `formatTime_spec` at the double `125.5`. -/
theorem formatTime_spec_witness :
    IsDouble (251 / 2) ∧ (0 : ℚ) ≤ 251 / 2 ∧ (251 / 2 : ℚ) < 9007199254740992 ∧
    formatTime (JSNum.fin (251 / 2)) =
      Nat.repr ⌊(251 / 2 : ℚ) / 60⌋.toNat ++ ":" ++
        twoDigits ⌊(251 / 2 : ℚ) - 60 * (⌊(251 / 2 : ℚ) / 60⌋ : ℚ)⌋.toNat ∧
    formatTime (JSNum.fin (251 / 2)) = "2:05" :=
  ⟨by decide!, by norm_num, by norm_num,
    (formatTime_spec (251 / 2) (by decide!) (by norm_num) (by norm_num)).2.1, by decide!⟩

theorem setProgress_eq (e : ClickEvent) (p : AudioPlayer) (d f v : ℚ)
    (hd : p.audio.duration = JSNum.fin d)
    (hf : JSNum.div (JSNum.fin e.offsetX) (JSNum.fin p.clientWidth) = JSNum.fin f)
    (hv : JSNum.mul (JSNum.fin f) (JSNum.fin d) = JSNum.fin v) :
    setProgress e p =
      ({ p with audio := { p.audio with currentTime := JSNum.fin (max 0 (min v d)) } },
        Completion.normal) := by
  unfold setProgress
  simp only [hf]
  rw [hd, hv]
  simp only [Audio.setCurrentTime, hd, seekPosition]

/-- The position a seek leaves is the clamped fraction times the duration, in double
arithmetic. -/
theorem seek_clamped (d f v : ℚ) (hdd : IsDouble d) (hd0 : 0 ≤ d)
    (hv : roundDouble (f * d) = JSNum.fin v) :
    JSNum.fin (max 0 (min v d)) = roundDouble (clamp01 f * d) ∧
    (f ≤ 0 → max 0 (min v d) = 0) ∧ (1 ≤ f → max 0 (min v d) = d) ∧
    (0 ≤ f → f ≤ 1 → max 0 (min v d) = v) := by
  have hle : f ≤ 0 → max 0 (min v d) = 0 := by
    intro hf
    have hv0 : v ≤ 0 := roundDouble_nonpos _ v (mul_nonpos_of_nonpos_of_nonneg hf hd0) hv
    rw [min_eq_left (hv0.trans hd0), max_eq_left hv0]
  have hge : 1 ≤ f → max 0 (min v d) = d := by
    intro hf
    rcases hd0.eq_or_lt with h0 | h0
    · subst h0
      have : v = 0 := by
        rw [mul_zero, roundDouble_zero] at hv
        exact (JSNum.fin.inj hv).symm
      subst this
      simp
    · have hdv : d ≤ v :=
        roundDouble_ge_of_ge (f * d) d v hdd h0 (by nlinarith) hv
      rw [min_eq_right hdv, max_eq_right hd0]
  have hmid : 0 ≤ f → f ≤ 1 → max 0 (min v d) = v := by
    intro hf0 hf1
    have hv0 : 0 ≤ v := roundDouble_nonneg _ v (mul_nonneg hf0 hd0) hv
    have hvd : v ≤ d := by
      rcases (mul_nonneg hf0 hd0).eq_or_lt with h0 | h0
      · rw [← h0, roundDouble_zero] at hv
        rw [← JSNum.fin.inj hv]
        exact hd0
      · exact roundDouble_le_of_le (f * d) d v hdd h0 (by nlinarith) hv
    rw [min_eq_left hvd, max_eq_right hv0]
  refine ⟨?_, hle, hge, hmid⟩
  rcases le_total f 0 with hf | hf
  · rw [hle hf, clamp01, min_eq_right (hf.trans (by norm_num)), max_eq_left hf, zero_mul,
      roundDouble_zero]
  · rcases le_total f 1 with hf1 | hf1
    · rw [hmid hf hf1, clamp01, min_eq_right hf1, max_eq_right hf, hv]
    · rw [hge hf1, clamp01, min_eq_left hf1, max_eq_right (by norm_num), one_mul]
      exact hdd.symm

/-- C4, as stated, fails: on a player of width 200 and duration 180 a click at
`offsetX = 140` (fraction 0.7) leaves the position `125.99999999999998863...`, the double
product of the double quotient, not `clamp(0.7, 0, 1) × 180 = 126`. -/
theorem setProgress_rounds_product :
    idlePlayer.audio.duration = JSNum.fin 180 ∧ idlePlayer.clientWidth = 200 ∧
    (setProgress ⟨140⟩ idlePlayer).1.audio.currentTime =
      JSNum.fin (8866461766385663 / 70368744177664) ∧
    (setProgress ⟨140⟩ idlePlayer).1.audio.currentTime ≠
      JSNum.fin (clamp01 (140 / 200) * 180) := by
  refine ⟨rfl, rfl, by decide!, by decide!⟩

/-- C4, amended: when the handle's duration `d` is known and the fraction
`f = offsetX / clientWidth` and its product with `d`, both computed in double arithmetic,
are finite, `setProgress` ends normally and leaves the handle at `clamp(f, 0, 1) × d`, the
product being the double one; the clamp is the handle's, which seeks no further than its
ends.  So a click at a fraction `f ≤ 0` (such as `-0.5`) leaves the position `0` of
fraction 0, and a click at a fraction `f ≥ 1` (such as `1.5`) leaves the position `d` of
fraction 1.  Nothing but the position changes. -/
theorem setProgress_known_duration (e : ClickEvent) (p : AudioPlayer) (d f v : ℚ)
    (hd : p.audio.duration = JSNum.fin d) (hdd : IsDouble d) (hd0 : 0 ≤ d)
    (hf : JSNum.div (JSNum.fin e.offsetX) (JSNum.fin p.clientWidth) = JSNum.fin f)
    (hv : JSNum.mul (JSNum.fin f) (JSNum.fin d) = JSNum.fin v) :
    (setProgress e p).2 = Completion.normal ∧
    (setProgress e p).1.audio.currentTime =
      JSNum.mul (JSNum.fin (clamp01 f)) (JSNum.fin d) ∧
    (f ≤ 0 → (setProgress e p).1.audio.currentTime = JSNum.fin 0) ∧
    (1 ≤ f → (setProgress e p).1.audio.currentTime = JSNum.fin d) ∧
    (0 ≤ f → f ≤ 1 → (setProgress e p).1.audio.currentTime = JSNum.fin v) ∧
    (setProgress e p).1 =
      { p with audio :=
          { p.audio with currentTime := (setProgress e p).1.audio.currentTime } } := by
  obtain ⟨h1, h2, h3, h4⟩ := seek_clamped d f v hdd hd0 hv
  rw [setProgress_eq e p d f v hd hf hv]
  refine ⟨rfl, h1, ?_, ?_, ?_, rfl⟩
  · intro hf0
    exact congrArg JSNum.fin (h2 hf0)
  · intro hf1
    exact congrArg JSNum.fin (h3 hf1)
  · intro hf0 hf1
    exact congrArg JSNum.fin (h4 hf0 hf1)

/-- Witness of `setProgress_known_duration`: a click at fraction 1.5 on a player of width
200 and duration 180 leaves the position 180. -/
theorem setProgress_known_duration_witness :
    idlePlayer.audio.duration = JSNum.fin 180 ∧ IsDouble 180 ∧ (0 : ℚ) ≤ 180 ∧
    JSNum.div (JSNum.fin 300) (JSNum.fin idlePlayer.clientWidth) = JSNum.fin (3 / 2) ∧
    JSNum.mul (JSNum.fin (3 / 2)) (JSNum.fin 180) = JSNum.fin 270 ∧
    (setProgress ⟨300⟩ idlePlayer).1.audio.currentTime = JSNum.fin 180 :=
  ⟨rfl, by decide!, by norm_num, by decide!, by decide!,
    (setProgress_known_duration ⟨300⟩ idlePlayer 180 (3 / 2) 270 rfl (by decide!)
      (by norm_num) (by decide!) (by decide!)).2.2.2.1 (by norm_num)⟩

theorem mul_nan (a : JSNum) : JSNum.mul a JSNum.nan = JSNum.nan := by
  cases a <;> rfl

/-- C5, as stated, fails: with the duration unknown the call does fail; the assignment of
`NaN` to `currentTime` raises a `TypeError`. -/
theorem setProgress_unknown_duration_throws :
    unloadedPlayer.audio.duration = JSNum.nan ∧
    (setProgress ⟨100⟩ unloadedPlayer).2 = Completion.typeError ∧
    (setProgress ⟨100⟩ unloadedPlayer).2 ≠ Completion.normal := by
  decide!

/-- C5, amended: when the duration is `NaN`, `setProgress` changes nothing for any click
position, the handle's current position included, but the call fails: the value it
computes is `NaN`, and assigning it to `currentTime` raises a `TypeError`, which
`setProgress` does not catch. -/
theorem setProgress_unknown_duration (e : ClickEvent) (p : AudioPlayer)
    (hd : p.audio.duration = JSNum.nan) :
    (setProgress e p).1 = p ∧
    (setProgress e p).1.audio.currentTime = p.audio.currentTime ∧
    (setProgress e p).2 = Completion.typeError := by
  have h : setProgress e p = (p, Completion.typeError) := by
    simp only [setProgress, hd, mul_nan, Audio.setCurrentTime]
  rw [h]
  exact ⟨rfl, rfl, rfl⟩

/-- Witness of `setProgress_unknown_duration`. -/
theorem setProgress_unknown_duration_witness :
    unloadedPlayer.audio.duration = JSNum.nan ∧
    (setProgress ⟨100⟩ unloadedPlayer).1.audio.currentTime = JSNum.fin 0 ∧
    (setProgress ⟨100⟩ unloadedPlayer).2 = Completion.typeError :=
  ⟨rfl, (setProgress_unknown_duration ⟨100⟩ unloadedPlayer rfl).2.1,
    (setProgress_unknown_duration ⟨100⟩ unloadedPlayer rfl).2.2⟩

/-! ### Slideshows -/

theorem next_eq (n i : ℤ) (hi : 0 ≤ i) (hn : i < n) :
    (i + 1).tmod n = if i + 1 = n then 0 else i + 1 := by
  rw [Int.tmod_eq_emod (by omega) (by omega)]
  split
  · next h => rw [h, Int.emod_self]
  · next h => exact Int.emod_eq_of_lt (by omega) (by omega)

theorem prev_eq (n i : ℤ) (hi : 0 ≤ i) (hn : i < n) :
    (i - 1 + n).tmod n = if i = 0 then n - 1 else i - 1 := by
  rw [Int.tmod_eq_emod (by omega) (by omega)]
  split
  · next h =>
    subst h
    rw [show (0 : ℤ) - 1 + n = n - 1 by ring]
    exact Int.emod_eq_of_lt (by omega) (by omega)
  · next h =>
    rw [Int.add_emod_self]
    exact Int.emod_eq_of_lt (by omega) (by omega)

/-- C8: for `n ≥ 1` slides and an index `0 ≤ i < n`, in the video slideshow and in the
testimonial slider alike: `prevSlide` after `nextSlide` and `nextSlide` after `prevSlide`
give back `i`; both keep the index in `[0, n)`; `nextSlide` at `n - 1` gives `0` and
`prevSlide` at `0` gives `n - 1`. -/
theorem slide_next_prev (n : Nat) (i : ℤ) (hn : 1 ≤ n) (h0 : 0 ≤ i) (hi : i < n) :
    (VideoSlideshow.prevSlide n (VideoSlideshow.nextSlide n i) = i ∧
      VideoSlideshow.nextSlide n (VideoSlideshow.prevSlide n i) = i ∧
      0 ≤ VideoSlideshow.nextSlide n i ∧ VideoSlideshow.nextSlide n i < n ∧
      0 ≤ VideoSlideshow.prevSlide n i ∧ VideoSlideshow.prevSlide n i < n ∧
      VideoSlideshow.nextSlide n (n - 1) = 0 ∧ VideoSlideshow.prevSlide n 0 = n - 1) ∧
    (Testimonials.prevSlide n (Testimonials.nextSlide n i) = i ∧
      Testimonials.nextSlide n (Testimonials.prevSlide n i) = i ∧
      0 ≤ Testimonials.nextSlide n i ∧ Testimonials.nextSlide n i < n ∧
      0 ≤ Testimonials.prevSlide n i ∧ Testimonials.prevSlide n i < n ∧
      Testimonials.nextSlide n (n - 1) = 0 ∧ Testimonials.prevSlide n 0 = n - 1) := by
  have hn' : (1 : ℤ) ≤ n := by exact_mod_cast hn
  have key : ∀ j : ℤ, 0 ≤ j → j < n →
      0 ≤ (j + 1).tmod n ∧ (j + 1).tmod n < n ∧ 0 ≤ (j - 1 + n).tmod n ∧
        (j - 1 + n).tmod n < n := by
    intro j hj0 hjn
    rw [next_eq n j hj0 hjn, prev_eq n j hj0 hjn]
    split <;> split <;> omega
  have hpn : ((i + 1).tmod n - 1 + n).tmod n = i := by
    rw [prev_eq n _ (key i h0 hi).1 (key i h0 hi).2.1, next_eq n i h0 hi]
    split <;> split <;> omega
  have hnp : ((i - 1 + n).tmod n + 1).tmod n = i := by
    rw [next_eq n _ (key i h0 hi).2.2.1 (key i h0 hi).2.2.2, prev_eq n i h0 hi]
    split <;> split <;> omega
  have hlast : ((n : ℤ) - 1 + 1).tmod n = 0 := by
    rw [next_eq n (n - 1) (by omega) (by omega)]
    simp
  have hfirst : ((0 : ℤ) - 1 + n).tmod n = n - 1 := by
    rw [prev_eq n 0 (by omega) (by omega)]
    simp
  obtain ⟨k1, k2, k3, k4⟩ := key i h0 hi
  exact ⟨⟨hpn, hnp, k1, k2, k3, k4, hlast, hfirst⟩, ⟨hpn, hnp, k1, k2, k3, k4, hlast, hfirst⟩⟩

/-- Witness of `slide_next_prev`: five slides, at the last index. -/
theorem slide_next_prev_witness :
    1 ≤ 5 ∧ (0 : ℤ) ≤ 4 ∧ (4 : ℤ) < (5 : Nat) ∧
    VideoSlideshow.prevSlide (5 : Nat) (VideoSlideshow.nextSlide (5 : Nat) 4) = 4 ∧
    Testimonials.prevSlide (5 : Nat) (Testimonials.nextSlide (5 : Nat) 4) = 4 :=
  ⟨by decide, by decide, by decide,
    (slide_next_prev 5 4 (by decide) (by decide) (by decide)).1.1,
    (slide_next_prev 5 4 (by decide) (by decide) (by decide)).2.1⟩

/-! ### Dates -/

theorem dayFromYear_succ (y : ℤ) : dayFromYear (y + 1) = dayFromYear y + daysInYear y := by
  unfold dayFromYear daysInYear
  split_ifs <;> omega

theorem yearFromDay_spec (d : ℤ) :
    dayFromYear (yearFromDay d) ≤ d ∧ d < dayFromYear (yearFromDay d + 1) := by
  unfold yearFromDay
  simp only
  have hb1 : 146097 * (d * 400 / 146097) ≤ d * 400 := by omega
  have hb2 : d * 400 < 146097 * (d * 400 / 146097) + 146097 := by omega
  generalize d * 400 / 146097 = a at hb1 hb2
  split_ifs with h1 h2
  · rw [sub_add_cancel]
    refine ⟨?_, h1⟩
    unfold dayFromYear
    omega
  · refine ⟨h2, ?_⟩
    unfold dayFromYear
    omega
  · exact ⟨not_lt.mp h1, not_le.mp h2⟩

theorem dayFromYear_mono (a b : ℤ) (hab : a ≤ b) : dayFromYear a ≤ dayFromYear b := by
  unfold dayFromYear
  omega

/-- The year of a day number is the one whose days bracket it. -/
theorem yearFromDay_unique (d y : ℤ) (h1 : dayFromYear y ≤ d) (h2 : d < dayFromYear (y + 1)) :
    yearFromDay d = y := by
  have h := yearFromDay_spec d
  by_contra hne
  rcases lt_or_gt_of_ne hne with hlt | hgt
  · have := dayFromYear_mono (yearFromDay d + 1) y (by omega)
    omega
  · have := dayFromYear_mono (y + 1) (yearFromDay d) (by omega)
    omega

theorem daysInYear_eq (y : ℤ) : daysInYear y = if isLeapYear y then 366 else 365 := by
  unfold daysInYear isLeapYear
  by_cases h4 : y % 4 = 0 <;> by_cases h100 : y % 100 = 0 <;> by_cases h400 : y % 400 = 0 <;>
    simp [h4, h100, h400] <;> omega

theorem yearLength_eq (y : ℤ) : (daysBeforeMonth y 12 : ℤ) = daysInYear y := by
  rw [daysInYear_eq]
  cases h : isLeapYear y <;> simp [daysBeforeMonth, monthLength, h]

theorem monthStart_eq (y : ℤ) (m : Nat) (hm : m ≤ 11) :
    monthStart y m = daysBeforeMonth y m := by
  unfold monthStart
  rw [daysInYear_eq]
  interval_cases m <;> cases h : isLeapYear y <;> simp [daysBeforeMonth, monthLength, h]

theorem countDaysUp_eq (n : Nat) (y : ℤ) (acc : Nat) :
    (countDaysUp n y acc : ℤ) = acc + dayFromYear (y + n) - dayFromYear y := by
  induction n generalizing y acc with
  | zero => simp [countDaysUp]
  | succ n ih =>
    rw [countDaysUp, ih]
    push_cast
    rw [yearLength_eq, dayFromYear_succ, show y + 1 + (n : ℤ) = y + (n + 1) by ring]
    ring

theorem countDaysDown_eq (n : Nat) (y : ℤ) (acc : Nat) :
    (countDaysDown n y acc : ℤ) = acc + dayFromYear y - dayFromYear (y - n) := by
  induction n generalizing y acc with
  | zero => simp [countDaysDown]
  | succ n ih =>
    have h := dayFromYear_succ (y - 1)
    rw [sub_add_cancel] at h
    rw [countDaysDown, ih]
    push_cast
    rw [yearLength_eq, show y - 1 - (n : ℤ) = y - (n + 1) by ring]
    linarith

theorem dayFromYear_up (n : Nat) : dayFromYear (1970 + n) = daysUp n := by
  have h0 : dayFromYear 1970 = 0 := by decide
  rw [daysUp, countDaysUp_eq, h0]
  simp

theorem dayFromYear_down (n : Nat) : dayFromYear (1970 - n) = -(daysDown n : ℤ) := by
  have h0 : dayFromYear 1970 = 0 := by decide
  rw [daysDown, countDaysDown_eq, h0]
  simp

/-- The closed form of ECMAScript agrees with the count of days month by month. -/
theorem makeDay_first (y : ℤ) (m : Nat) (hm : m ≤ 11) :
    makeDay y m 1 = daysSinceEpoch y m := by
  have h1 : (m : ℤ) / 12 = 0 := by omega
  have h2 : (m : ℤ) % 12 = m := by omega
  unfold makeDay daysSinceEpoch
  rw [h1, h2, add_zero, monthStart_eq y m hm]
  split
  · next h =>
    have := dayFromYear_up (y - 1970).toNat
    rw [← this]
    have : (1970 : ℤ) + ((y - 1970).toNat : ℤ) = y := by omega
    rw [this]
    ring
  · next h =>
    have := dayFromYear_down (1970 - y).toNat
    rw [← this]
    have : (1970 : ℤ) - ((1970 - y).toNat : ℤ) = y := by omega
    rw [this]
    ring

theorem daysBeforeMonth_bounds (y : ℤ) (m : Nat) (hm : m ≤ 11) :
    (daysBeforeMonth y m : ℤ) + monthLength y m ≤ daysInYear y ∧ 28 ≤ monthLength y m := by
  rw [daysInYear_eq]
  interval_cases m <;> cases h : isLeapYear y <;> simp [daysBeforeMonth, monthLength, h]

/-- The day numbers `makeDay` builds are read back as the year, month and date they were
built from. -/
theorem civil_of_day (y : ℤ) (m : Nat) (dt : ℤ) (hm : m ≤ 11) (h1 : 1 ≤ dt)
    (h2 : dt ≤ monthLength y m) :
    yearFromDay (dayFromYear y + daysBeforeMonth y m + dt - 1) = y ∧
    monthFromDay (dayFromYear y + daysBeforeMonth y m + dt - 1) = m ∧
    dateFromDay (dayFromYear y + daysBeforeMonth y m + dt - 1) = dt := by
  obtain ⟨hb, _⟩ := daysBeforeMonth_bounds y m hm
  have hy : yearFromDay (dayFromYear y + daysBeforeMonth y m + dt - 1) = y := by
    apply yearFromDay_unique
    · omega
    · rw [dayFromYear_succ]
      omega
  have hW : dayWithinYear (dayFromYear y + daysBeforeMonth y m + dt - 1) =
      daysBeforeMonth y m + dt - 1 := by
    unfold dayWithinYear
    rw [hy]
    ring
  have hL : inLeapYear (dayFromYear y + daysBeforeMonth y m + dt - 1) =
      if isLeapYear y then 1 else 0 := by
    unfold inLeapYear
    rw [hy, daysInYear_eq]
    cases isLeapYear y <;> simp
  have hM : monthFromDay (dayFromYear y + daysBeforeMonth y m + dt - 1) = m := by
    unfold monthFromDay
    rw [hW, hL]
    interval_cases m <;> cases h : isLeapYear y <;>
      simp [daysBeforeMonth, monthLength, h] at h2 ⊢ <;> omega
  refine ⟨hy, hM, ?_⟩
  unfold dateFromDay
  rw [hM, hW, hL]
  interval_cases m <;> cases h : isLeapYear y <;>
    simp [daysBeforeMonth, monthLength, h] <;> omega

theorem makeDay_last (y : ℤ) (m : Nat) (hm : m ≤ 11) :
    makeDay y ((m : ℤ) + 1) 0 =
      dayFromYear y + daysBeforeMonth y m + (monthLength y m : ℤ) - 1 := by
  unfold makeDay
  rcases Nat.lt_or_ge m 11 with h | h
  · have h1 : ((m : ℤ) + 1) / 12 = 0 := by omega
    have h2 : ((m : ℤ) + 1) % 12 = ((m + 1 : ℕ) : ℤ) := by push_cast; omega
    simp only [h1, h2, add_zero]
    rw [monthStart_eq y (m + 1) (by omega), daysBeforeMonth]
    push_cast
    ring
  · have h11 : m = 11 := by omega
    subst h11
    have h1 : (((11 : ℕ) : ℤ) + 1) / 12 = 1 := by decide
    have h2 : (((11 : ℕ) : ℤ) + 1) % 12 = 0 := by decide
    simp only [h1, h2, add_zero]
    rw [dayFromYear_succ, ← yearLength_eq]
    simp [monthStart, daysBeforeMonth, monthLength]
    ring

theorem dayFromYear_range (y : ℤ) (h1 : -271820 ≤ y) (h2 : y ≤ 275759) :
    -99999800 ≤ dayFromYear y ∧ dayFromYear y ≤ 99999400 := by
  unfold dayFromYear
  omega

theorem timeClip_days (d : ℤ) (h1 : -100000000 ≤ d) (h2 : d ≤ 100000000) :
    timeClip (d * msPerDay) = some (d * msPerDay) := by
  unfold timeClip msPerDay
  rw [if_pos]
  rw [abs_le]
  constructor <;> omega

theorem newDate_plain (y : ℤ) (m d : ℤ) (hy : PlainYear y) :
    newDate y m d = timeClip (makeDay y m d * msPerDay) := by
  unfold newDate
  rw [if_neg hy.2.2]

/-- On a plain year `new Date(year, month, 1).getDay()` is the weekday of the first day of
the month. -/
theorem getDay_first (y : ℤ) (m : Nat) (hy : PlainYear y) (hm : m ≤ 11) :
    getDay (newDate y m 1) = some (weekdayOfFirst y m : ℤ) := by
  have hr := dayFromYear_range y hy.1 hy.2.1
  have hb := daysBeforeMonth_bounds y m hm
  have hd : daysInYear y ≤ 366 := by
    unfold daysInYear
    split_ifs <;> omega
  have hmk : makeDay y m 1 = dayFromYear y + daysBeforeMonth y m := by
    have h1 : (m : ℤ) / 12 = 0 := by omega
    have h2 : (m : ℤ) % 12 = m := by omega
    unfold makeDay
    rw [h1, h2, add_zero, monthStart_eq y m hm]
    ring
  rw [newDate_plain y m 1 hy, timeClip_days _ (by omega) (by omega)]
  unfold getDay weekDay weekdayOfFirst
  simp only [Option.map_some', Option.some.injEq]
  have hms : makeDay y (m : ℤ) 1 * msPerDay / msPerDay = makeDay y m 1 :=
    Int.mul_ediv_cancel _ (by decide)
  rw [hms, makeDay_first y m hm, Int.toNat_of_nonneg (Int.emod_nonneg _ (by norm_num))]
  ring_nf

/-- On a plain year `new Date(year, month + 1, 0).getDate()` is the number of days of the
month. -/
theorem getDate_last (y : ℤ) (m : Nat) (hy : PlainYear y) (hm : m ≤ 11) :
    getDate (newDate y ((m : ℤ) + 1) 0) = some (monthLength y m : ℤ) := by
  have hr := dayFromYear_range y hy.1 hy.2.1
  have hb := daysBeforeMonth_bounds y m hm
  have hd : daysInYear y ≤ 366 := by
    unfold daysInYear
    split_ifs <;> omega
  rw [newDate_plain y _ 0 hy, makeDay_last y m hm, timeClip_days _ (by omega) (by omega)]
  unfold getDate
  simp only [Option.map_some', Option.some.injEq]
  rw [Int.mul_ediv_cancel _ (by decide)]
  exact (civil_of_day y m (monthLength y m) hm (by omega) le_rfl).2.2

/-! ### Calendar -/

theorem blankLoop_eq (n : ℤ) (fuel i : Nat) (grid : List Cell) (h : n.toNat ≤ i + fuel) :
    blankLoop (some n) fuel i grid = grid ++ List.replicate (n.toNat - i) emptyCell := by
  induction fuel generalizing i grid with
  | zero =>
    have : n.toNat - i = 0 := by omega
    simp [blankLoop, this]
  | succ f ih =>
    unfold blankLoop
    simp only [ltBound, decide_eq_true_eq]
    split
    · next hlt =>
      rw [ih (i + 1) _ (by omega), show n.toNat - i = (n.toNat - (i + 1)) + 1 by omega,
        List.replicate_succ, List.append_assoc]
      rfl
    · next hge =>
      have : n.toNat - i = 0 := by omega
      simp [this]

theorem dayLoop_eq (n : ℤ) (fuel day : Nat) (grid : List Cell) (hday : 1 ≤ day)
    (h : n.toNat + 1 ≤ day + fuel) :
    dayLoop (some n) fuel day grid =
      grid ++ (List.range' day (n.toNat + 1 - day)).map dayCell := by
  induction fuel generalizing day grid with
  | zero =>
    have : n.toNat + 1 - day = 0 := by omega
    simp [dayLoop, this]
  | succ f ih =>
    unfold dayLoop
    simp only [leBound, decide_eq_true_eq]
    split
    · next hle =>
      rw [ih (day + 1) _ (by omega) (by omega),
        show n.toNat + 1 - day = (n.toNat + 1 - (day + 1)) + 1 by omega,
        List.range'_succ, List.map_cons, List.append_assoc]
      rfl
    · next hgt =>
      have : n.toNat + 1 - day = 0 := by omega
      simp [this]

theorem dayCell_class (day : Nat) :
    (dayCell day).textContent = Nat.repr day ∧
    (dayCell day).classList =
      ["calendar-day", if day ∈ [5, 12, 18, 25] then "booked"
        else if day ∈ [8, 15, 22] then "pending" else "available"] ∧
    (dayCell day).style = [] := by
  refine ⟨rfl, ?_, rfl⟩
  by_cases hb : day ∈ [5, 12, 18, 25]
  · have hb' : bookedDates.contains day = true := by simpa [bookedDates] using hb
    simp only [dayCell, hb', if_true, hb]
  · have hb' : bookedDates.contains day = false := by simpa [bookedDates] using hb
    by_cases hp : day ∈ [8, 15, 22]
    · have hp' : pendingDates.contains day = true := by simpa [pendingDates] using hp
      simp only [dayCell, hb', hp', if_true, hb, hp, Bool.false_eq_true, if_false]
    · have hp' : pendingDates.contains day = false := by simpa [pendingDates] using hp
      simp only [dayCell, hb', hp', hb, hp, Bool.false_eq_true, if_false]

/-- C9, as stated, fails.  For February of the year 0 the constructor reads the year as
1900: the grid has 4 blank cells and 28 day cells, those of February 1900, while
1 February of the year 0 is a Tuesday (index 2) and that month has 29 days.  For
September 275760, the last month a `Date` can hold, the last day of the month is past the
end of the range: the date is invalid and no day cell is drawn. -/
theorem renderCalendar_two_digit_year :
    (renderCalendar 0 1 ⟨[]⟩).grid =
      dayHeaders.map headerCell ++ List.replicate 4 emptyCell ++
        (List.range' 1 28).map dayCell ∧
    weekdayOfFirst 0 1 = 2 ∧ monthLength 0 1 = 29 ∧
    getDay (newDate 1900 1 1) = some 4 ∧ getDate (newDate 1900 2 0) = some 28 ∧
    getDay (newDate 275760 8 1) = some 1 ∧ getDate (newDate 275760 9 0) = none ∧
    (renderCalendar 275760 8 ⟨[]⟩).grid = dayHeaders.map headerCell ++ [emptyCell] := by
  refine ⟨by decide!, by decide!, by decide!, by decide!, by decide!, by decide!, by decide!,
    by decide!⟩

/-- C9, amended: for every year from -271820 to 275759 other than 0 to 99, and every month,
the grid drawn by `renderCalendar` is the 7 weekday headers `Sun` to `Sat`, then exactly
`w` blank cells, `w` being the weekday index (Sunday = 0) of day 1 of the month, then one
`calendar-day` cell for each day `1..D` in order, `D` being the number of days of the
month; every day cell carries exactly one of the classes `booked`, `pending`,
`available`: `booked` iff the day is in `[5, 12, 18, 25]`, `pending` iff it is in
`[8, 15, 22]`, `available` otherwise. -/
theorem renderCalendar_grid (year : ℤ) (m : Nat) (cal : Calendar) (hy : PlainYear year)
    (hm : m ≤ 11) :
    (renderCalendar year m cal).grid =
      [⟨"Sun", [], [("fontWeight", "bold"), ("textAlign", "center"), ("padding", "0.5rem")]⟩,
       ⟨"Mon", [], [("fontWeight", "bold"), ("textAlign", "center"), ("padding", "0.5rem")]⟩,
       ⟨"Tue", [], [("fontWeight", "bold"), ("textAlign", "center"), ("padding", "0.5rem")]⟩,
       ⟨"Wed", [], [("fontWeight", "bold"), ("textAlign", "center"), ("padding", "0.5rem")]⟩,
       ⟨"Thu", [], [("fontWeight", "bold"), ("textAlign", "center"), ("padding", "0.5rem")]⟩,
       ⟨"Fri", [], [("fontWeight", "bold"), ("textAlign", "center"), ("padding", "0.5rem")]⟩,
       ⟨"Sat", [], [("fontWeight", "bold"), ("textAlign", "center"), ("padding", "0.5rem")]⟩] ++
        List.replicate (weekdayOfFirst year m) ⟨"", [], []⟩ ++
        (List.range' 1 (monthLength year m)).map (fun day =>
          ⟨Nat.repr day,
            ["calendar-day", if day ∈ [5, 12, 18, 25] then "booked"
              else if day ∈ [8, 15, 22] then "pending" else "available"], []⟩) ∧
    weekdayOfFirst year m < 7 ∧
    28 ≤ monthLength year m ∧ monthLength year m ≤ 31 ∧
    (∀ day : Nat,
      "calendar-day" ∈ (dayCell day).classList ∧
      ((dayCell day).classList.filter (fun c => statusClasses.contains c)).length = 1 ∧
      ("booked" ∈ (dayCell day).classList ↔ day ∈ [5, 12, 18, 25]) ∧
      ("pending" ∈ (dayCell day).classList ↔ day ∈ [8, 15, 22]) ∧
      ("available" ∈ (dayCell day).classList ↔
        day ∉ [5, 12, 18, 25] ∧ day ∉ [8, 15, 22])) := by
  refine ⟨?_, ?_, (daysBeforeMonth_bounds year m hm).2, ?_, ?_⟩
  · simp only [renderCalendar, getDay_first year m hy hm, getDate_last year m hy hm,
      Option.getD_some, Int.toNat_ofNat]
    rw [dayLoop_eq _ _ _ _ le_rfl (by rw [Int.toNat_ofNat]; omega),
      blankLoop_eq _ _ _ _ (by rw [Int.toNat_ofNat]; omega)]
    simp only [Int.toNat_ofNat, Nat.sub_zero, Nat.add_sub_cancel, List.nil_append]
    congr 1
    apply List.map_congr_left
    intro day _
    obtain ⟨h1, h2, h3⟩ := dayCell_class day
    cases hc : dayCell day
    rw [hc] at h1 h2 h3
    simp only at h1 h2 h3
    rw [h1, h2, h3]
  · unfold weekdayOfFirst
    have := Int.emod_lt_of_pos (4 + daysSinceEpoch year m) (by norm_num : (0 : ℤ) < 7)
    have := Int.emod_nonneg (4 + daysSinceEpoch year m) (by norm_num : (7 : ℤ) ≠ 0)
    omega
  · interval_cases m <;> cases h : isLeapYear year <;> simp [monthLength, h]
  · intro day
    obtain ⟨_, h2, _⟩ := dayCell_class day
    rw [h2]
    by_cases hb : day ∈ [5, 12, 18, 25]
    · have hnp : day ∉ [8, 15, 22] := by
        simp only [List.mem_cons, List.mem_singleton, List.not_mem_nil, or_false] at hb ⊢
        omega
      simp only [if_pos hb]
      exact ⟨by decide, by decide, by simp [hb], by simp [hnp], by simp [hb]⟩
    · by_cases hp : day ∈ [8, 15, 22]
      · simp only [if_neg hb, if_pos hp]
        exact ⟨by decide, by decide, by simp [hb], by simp [hp], by simp [hp]⟩
      · simp only [if_neg hb, if_neg hp]
        exact ⟨by decide, by decide, by simp [hb], by simp [hp], by simp [hb, hp]⟩

/-- Witness of `renderCalendar_grid`: February 2024 begins on a Thursday and has 29
days. -/
theorem renderCalendar_grid_witness :
    PlainYear 2024 ∧ 1 ≤ 11 ∧ weekdayOfFirst 2024 1 = 4 ∧ monthLength 2024 1 = 29 ∧
    ((renderCalendar 2024 (1 : Nat) ⟨[]⟩).grid.drop 7).take 5 =
      [⟨"", [], []⟩, ⟨"", [], []⟩, ⟨"", [], []⟩, ⟨"", [], []⟩,
        ⟨"1", ["calendar-day", "available"], []⟩] ∧
    (renderCalendar 2024 (1 : Nat) ⟨[]⟩).grid.length = 7 + 4 + 29 := by
  have h := (renderCalendar_grid 2024 1 ⟨[]⟩ (by unfold PlainYear; omega) (by omega)).1
  have hw : weekdayOfFirst 2024 1 = 4 := by decide!
  have hl : monthLength 2024 1 = 29 := by decide
  refine ⟨by unfold PlainYear; omega, by omega, hw, hl, ?_, ?_⟩
  · rw [h, hw, hl]
    decide
  · rw [h, hw, hl]
    decide

/-! ### Contact form -/

theorem fullMatch_char (c : Char) (s : List Char) :
    (Regex.char c).fullMatch s = true ↔ s = [c] := by
  simp [Regex.fullMatch]

theorem fullMatch_classPlus (p : Char → Bool) (s : List Char) :
    (Regex.classPlus p).fullMatch s = true ↔ s ≠ [] ∧ ∀ c ∈ s, p c = true := by
  cases s <;> simp [Regex.fullMatch]

theorem fullMatch_seq (a b : Regex) (s : List Char) :
    (Regex.seq a b).fullMatch s = true ↔
      ∃ u v, s = u ++ v ∧ a.fullMatch u = true ∧ b.fullMatch v = true := by
  simp only [Regex.fullMatch, List.any_eq_true, List.mem_range, Bool.and_eq_true]
  constructor
  · rintro ⟨k, _, ha, hb⟩
    exact ⟨s.take k, s.drop k, (List.take_append_drop k s).symm, ha, hb⟩
  · rintro ⟨u, v, rfl, ha, hb⟩
    refine ⟨u.length, by simp; omega, ?_, ?_⟩
    · simpa using ha
    · simpa using hb

theorem test_iff (r : Regex) (s : String) :
    r.test s = true ↔
      ∃ pre m post, s.toList = pre ++ m ++ post ∧ r.fullMatch m = true := by
  simp only [Regex.test, List.any_eq_true, List.mem_range]
  constructor
  · rintro ⟨i, _, n, _, h⟩
    refine ⟨s.toList.take i, (s.toList.drop i).take n, (s.toList.drop i).drop n, ?_, h⟩
    rw [List.append_assoc, List.take_append_drop, List.take_append_drop]
  · rintro ⟨pre, m, post, hs, h⟩
    refine ⟨pre.length, by rw [hs]; simp; omega, m.length, by rw [hs]; simp; omega, ?_⟩
    rw [hs, List.append_assoc, List.drop_left, List.take_left]
    exact h

theorem emailPattern_test_iff (s : String) :
    emailPattern.test s = true ↔ ContainsEmailShape s := by
  rw [test_iff]
  unfold ContainsEmailShape emailPattern
  constructor
  · rintro ⟨pre, m, post, hs, hm⟩
    rw [fullMatch_seq] at hm
    obtain ⟨l, r1, rfl, hl, hr1⟩ := hm
    rw [fullMatch_seq] at hr1
    obtain ⟨a, r2, rfl, ha, hr2⟩ := hr1
    rw [fullMatch_seq] at hr2
    obtain ⟨d, r3, rfl, hd, hr3⟩ := hr2
    rw [fullMatch_seq] at hr3
    obtain ⟨b, t, rfl, hb, ht⟩ := hr3
    rw [fullMatch_char] at ha hb
    subst ha hb
    rw [fullMatch_classPlus] at hl hd ht
    refine ⟨pre, l, d, t, post, by simpa using hs, hl.1, hd.1, ht.1, ?_, ?_, ?_⟩
    · intro c hc
      simpa [notWhiteSpace] using hl.2 c hc
    · intro c hc
      simpa [notWhiteSpace] using hd.2 c hc
    · intro c hc
      simpa [notWhiteSpace] using ht.2 c hc
  · rintro ⟨pre, l, d, t, post, hs, hl, hd, ht, hlw, hdw, htw⟩
    refine ⟨pre, l ++ '@' :: (d ++ '.' :: t), post, hs, ?_⟩
    have hcls : ∀ u : List Char, u ≠ [] → (∀ c ∈ u, isWhiteSpace c = false) →
        (Regex.classPlus notWhiteSpace).fullMatch u = true := by
      intro u hu huw
      rw [fullMatch_classPlus]
      exact ⟨hu, fun c hc => by simp [notWhiteSpace, huw c hc]⟩
    rw [fullMatch_seq]
    refine ⟨l, '@' :: (d ++ '.' :: t), rfl, hcls l hl hlw, ?_⟩
    rw [fullMatch_seq]
    refine ⟨['@'], d ++ '.' :: t, rfl, (fullMatch_char _ _).mpr rfl, ?_⟩
    rw [fullMatch_seq]
    refine ⟨d, '.' :: t, rfl, hcls d hd hdw, ?_⟩
    rw [fullMatch_seq]
    exact ⟨['.'], t, rfl, (fullMatch_char _ _).mpr rfl, hcls t ht htw⟩

theorem validateForm_false (data : FormFields) (h : FormHandler)
    (hv : (validateForm data h).1 = false) :
    (validateForm data h).2 = showError "Please fill in all fields." h ∨
      (validateForm data h).2 = showError "Please enter a valid email address." h := by
  unfold validateForm at hv ⊢
  split
  · exact Or.inl rfl
  · split
    · exact Or.inr rfl
    · next h1 h2 => simp [h1, h2] at hv

theorem error_banner_ne_success (m1 m2 : String) (h : FormHandler) :
    (showError m1 h).messageHtml ≠ (showSuccess m2 h).messageHtml := by
  intro heq
  have h2 := congrArg String.data heq
  simp [showError, showSuccess, showMessage, String.data_append] at h2

/-- C10, as stated, fails: with the email `"x a@b.c"` and the other fields filled in,
`validateForm` returns `true`, although the email, holding a blank, is not of the shape
run of non-white-space, `@`, run of non-white-space, `.`, run of non-white-space. -/
theorem validateForm_accepts_embedded_address :
    (validateForm ⟨"Ann", "x a@b.c", "Booking", "Hello"⟩
      (freshForm ⟨"Ann", "x a@b.c", "Booking", "Hello"⟩)).1 = true ∧
    trim "Ann" ≠ "" ∧ trim "x a@b.c" ≠ "" ∧ trim "Booking" ≠ "" ∧ trim "Hello" ≠ "" ∧
    ¬ IsEmailShape "x a@b.c" := by
  refine ⟨by decide, by decide, by decide, by decide, by decide, ?_⟩
  rintro ⟨l, d, t, hs, -, -, -, hl, hd, ht⟩
  have hmem : ' ' ∈ "x a@b.c".toList := by decide
  rw [hs] at hmem
  simp only [List.mem_append, List.mem_cons] at hmem
  have hsp : isWhiteSpace ' ' = true := by decide
  rcases hmem with h1 | h1 | h1 | h1 | h1
  · rw [hl _ h1] at hsp
    exact Bool.false_ne_true hsp
  · exact absurd h1 (by decide)
  · rw [hd _ h1] at hsp
    exact Bool.false_ne_true hsp
  · exact absurd h1 (by decide)
  · rw [ht _ h1] at hsp
    exact Bool.false_ne_true hsp

/-- C10, amended: `validateForm` returns `true` if and only if all four fields are
non-empty after trimming and the email contains, somewhere in it, a run of non-white-space
characters, `@`, a run of non-white-space characters, `.`, a run of non-white-space
characters.  Whenever it returns `false` it shows an error banner (and nothing else
changes but the timer that clears the banner); `handleSubmit` then stops there: the form
keeps its values, no timer for the success path is set, and the banner on display is not
a success banner. -/
theorem validateForm_spec (data : FormFields) (h : FormHandler) :
    ((validateForm data h).1 = true ↔
      trim data.name ≠ "" ∧ trim data.email ≠ "" ∧ trim data.subject ≠ "" ∧
        trim data.message ≠ "" ∧ ContainsEmailShape data.email) ∧
    ((validateForm data h).1 = false →
      ∃ msg, (validateForm data h).2 = showError msg h ∧
        (validateForm data h).2.messageHtml =
          "<div class=\"message error\">" ++ msg ++ "</div>") ∧
    ((validateForm h.fields h).1 = false →
      handleSubmit h = (validateForm h.fields h).2 ∧
      (handleSubmit h).fields = h.fields ∧
      (handleSubmit h).timers = h.timers ++ [(5000, TimerCallback.clearMessage)] ∧
      ∀ msg, (handleSubmit h).messageHtml ≠ (showSuccess msg h).messageHtml) := by
  refine ⟨?_, ?_, ?_⟩
  · rw [← emailPattern_test_iff]
    unfold validateForm
    split
    · next h1 =>
      simp only [Bool.false_eq_true, false_iff]
      intro hc
      rcases h1 with h1 | h1 | h1 | h1
      · exact hc.1 h1
      · exact hc.2.1 h1
      · exact hc.2.2.1 h1
      · exact hc.2.2.2.1 h1
    · next h1 =>
      simp only [not_or] at h1
      split
      · next h2 =>
        simp only [Bool.false_eq_true, false_iff]
        intro hc
        simp [hc.2.2.2.2] at h2
      · next h2 =>
        simp only [Bool.not_eq_true', Bool.not_eq_false] at h2
        simp only [true_iff]
        exact ⟨h1.1, h1.2.1, h1.2.2.1, h1.2.2.2, h2⟩
  · intro hv
    rcases validateForm_false data h hv with h1 | h1
    · exact ⟨_, h1, by rw [h1]; rfl⟩
    · exact ⟨_, h1, by rw [h1]; rfl⟩
  · intro hv
    have hs : handleSubmit h = (validateForm h.fields h).2 := by
      simp [handleSubmit, hv]
    refine ⟨hs, ?_⟩
    rw [hs]
    rcases validateForm_false h.fields h hv with h1 | h1 <;> rw [h1] <;>
      exact ⟨rfl, rfl, fun msg => error_banner_ne_success _ msg h⟩

/-- Witness of `validateForm_spec`: a submission with an empty message. -/
theorem validateForm_spec_witness :
    (validateForm (freshForm ⟨"Ann", "ann@example.com", "Booking", "  "⟩).fields
      (freshForm ⟨"Ann", "ann@example.com", "Booking", "  "⟩)).1 = false ∧
    (handleSubmit (freshForm ⟨"Ann", "ann@example.com", "Booking", "  "⟩)).fields =
      (freshForm ⟨"Ann", "ann@example.com", "Booking", "  "⟩).fields :=
  ⟨by decide,
    ((validateForm_spec (freshForm ⟨"Ann", "ann@example.com", "Booking", "  "⟩).fields
      (freshForm ⟨"Ann", "ann@example.com", "Booking", "  "⟩)).2.2 (by decide)).2.1⟩

end Rayyiz
